import Mathlib

/-!
# mini-redis: a shallow embedding of the core subsystems

This file embeds, in Lean 4, the parts of the mini-redis repository that the
verified properties talk about:

* the RESP formatter and the incremental RESP parser
  (`src/services/mini-redis-core/src/tcp_client.js`, classes `RESPFormatter`
  and `RESPParser`),
* the key/value store with TTL (`MiniRedisStore` in the same file),
* the per-connection output multiplexer
  (`src/services/mini-redis-core/src/io_multiflexing.js`, class
  `IOMultiplexer`: `enqueue`, `_flush`, `broadcast`, `_broadcastInChunks`,
  `_processMessageSync`, `_compressMessage`),
* the pub/sub broker (`src/services/mini-redis-core/src/pubsub.js`) together
  with the dispatcher's subscription bookkeeping (`TCPServer.handleCommand`,
  SUBSCRIBE/UNSUBSCRIBE cases, and `handleClientClose`).

Modelling conventions:

* JavaScript strings are modelled as Lean `String` / `List Char`; the code
  only ever manipulates them by code unit and all inputs of interest are
  ASCII, so `Buffer.byteLength(s, "utf8")` is modelled as the character
  count (`String.length`).
* `Map` objects are modelled as functions to `Option` or as association
  lists when the presence of a key in the map is itself observable.
* Timers (`setTimeout` handles) are not modelled as handles: a pending TTL
  timer for key `k` exists exactly when `expirations` has an entry for `k`
  (the store clears the handle and the map entry together), so a timer
  firing is modelled as a step that is enabled only when the entry exists.
* `socket.write` is modelled by an oracle `writeOk : Nat → Bool` giving the
  boolean returned by the n-th write of a flush (Node's `write` accepts the
  data and returns `false` when its buffer is full).
-/

namespace MiniRedis

/-! ## JavaScript string helpers -/

/-- JS clamped index for `String.prototype.slice`: a negative index counts
from the end, and indices are clamped into `[0, n]`. -/
def jsIdx (n : Nat) (i : Int) : Nat :=
  if i < 0 then ((n : Int) + i).toNat else min i.toNat n

/-- JS `slice(start, end)` on a list of characters. -/
def jsSlice (l : List Char) (s e : Int) : List Char :=
  (l.take (jsIdx l.length e)).drop (jsIdx l.length s)

/-- JS `slice(start)` on a list of characters. -/
def jsSliceFrom (l : List Char) (s : Int) : List Char :=
  jsSlice l s (l.length : Int)

/-- Index of the first occurrence of `"\r\n"` (JS `indexOf("\r\n")`). -/
def findCRLF : List Char → Option Nat
  | [] => none
  | '\r' :: '\n' :: _ => some 0
  | _ :: rest => (findCRLF rest).map (· + 1)

/-- JS whitespace test (the characters `String.prototype.trim` and the
regexp `\s` treat as whitespace that occur in this code base). -/
def jsWhitespace (c : Char) : Bool :=
  c = ' ' ∨ c = '\t' ∨ c = '\n' ∨ c = '\r' ∨ c = '\x0b' ∨ c = '\x0c'

/-- JS `String.prototype.startsWith`. -/
def jsStartsWith (s pre : String) : Bool :=
  pre.toList.isPrefixOf s.toList

/-- JS `String.prototype.endsWith`. -/
def jsEndsWith (s suf : String) : Bool :=
  suf.toList.isSuffixOf s.toList

/-- JS `String.prototype.substring(n)` (drop the first `n` characters). -/
def jsDropStr (s : String) (n : Nat) : String :=
  String.mk (s.toList.drop n)

/-- JS `String.prototype.trim` on a character list. -/
def jsTrim (l : List Char) : List Char :=
  ((l.dropWhile jsWhitespace).reverse.dropWhile jsWhitespace).reverse

/-- Split a character list into its maximal whitespace-free runs
(the combination `line.trim().split(/\s+/).filter(p => p.length > 0)`);
`cur` accumulates the current run in reverse. -/
def splitWsGo (cur : List Char) : List Char → List String
  | [] => if cur.isEmpty then [] else [String.mk cur.reverse]
  | c :: r =>
    if jsWhitespace c then
      if cur.isEmpty then splitWsGo [] r
      else String.mk cur.reverse :: splitWsGo [] r
    else splitWsGo (c :: cur) r

/-- Whitespace-separated tokens of a line. -/
def splitWs (l : List Char) : List String := splitWsGo [] l

/-- JS `parseInt(s, 10)`: skip leading whitespace, read an optional sign and
then a maximal run of decimal digits; `none` models `NaN` (no digits). -/
def jsParseInt (s : List Char) : Option Int :=
  let t := s.dropWhile jsWhitespace
  let (neg, u) : Bool × List Char :=
    match t with
    | '-' :: rest => (true, rest)
    | '+' :: rest => (false, rest)
    | _ => (false, t)
  let digits := u.takeWhile Char.isDigit
  if digits.isEmpty then none
  else
    let v : Nat := digits.foldl (fun acc c => 10 * acc + (c.toNat - '0'.toNat)) 0
    some (if neg then -(v : Int) else (v : Int))

/-! ## RESP formatter (`RESPFormatter` in tcp_client.js)

`RESPFormatter.array` formats each element by its runtime type: strings as
bulk strings, numbers as integers, `null` as the null bulk string. `RItem`
enumerates exactly those element shapes. -/

inductive RItem where
  | rstr (s : String)
  | rint (n : Int)
  | rnull
  deriving DecidableEq, Repr

/-- Source `RESPFormatter.simpleString`. -/
def respSimpleString (s : String) : String := "+" ++ s ++ "\r\n"

/-- Source `RESPFormatter.error`. -/
def respError (s : String) : String := "-" ++ s ++ "\r\n"

/-- Source `RESPFormatter.integer`. -/
def respInteger (n : Int) : String := ":" ++ toString n ++ "\r\n"

/-- Source `RESPFormatter.bulkString` on a string or `null`. -/
def respBulkString : Option String → String
  | none => "$-1\r\n"
  | some s => "$" ++ toString s.length ++ "\r\n" ++ s ++ "\r\n"

/-- Source `RESPFormatter.array` on an array of strings / numbers / nulls. -/
def respArray (items : List RItem) : String :=
  items.foldl
    (fun acc it =>
      acc ++ match it with
        | .rstr s => respBulkString (some s)
        | .rint n => respInteger n
        | .rnull => respBulkString none)
    ("*" ++ toString items.length ++ "\r\n")

/-! ## Pub/sub publish payload (`PubSub.publish` in pubsub.js)

`publish` builds the payload it hands to every delivery strategy as
`` `message ${channel} ${message}` `` — a plain space-separated line, not a
RESP array. -/

/-- The `formattedMessage` built by `PubSub.publish`. -/
def pubsubFormattedMessage (channel message : String) : String :=
  "message " ++ channel ++ " " ++ message

/-- The newline handling of `IOMultiplexer.enqueue`: a payload that does not
already end with a RESP terminator gets `"\n"` appended
(`needsNewline = !line.endsWith("\r\n") && !line.endsWith("\n")`). -/
def enqueueContent (line : String) : String :=
  if jsEndsWith line "\r\n" || jsEndsWith line "\n" then line else line ++ "\n"

/-! ## Incremental RESP parser (`RESPParser` in tcp_client.js)

JavaScript values returned by the parser: strings, numbers (`parseInt` may
yield `NaN`, modelled as `.vInt none`), `Error` objects, and arrays.  The JS
`null` — which the parser uses both for "need more data" and for RESP null
values — is modelled as the `none` of an `Option JSValue`, exactly as
conflated as in the source.  Every parsing function returns the (possibly
mutated) buffer alongside its result, since `_parseArray` mutates
`this.buffer` before it knows whether the value is complete. -/

inductive JSValue where
  | vStr (s : String)
  | vInt (n : Option Int)
  | vErr (s : String)
  | vArr (l : List JSValue)
  deriving Repr

/-- JS `Array.prototype.flat()` with depth 1, used by `_parseArray` as
`elements.flat()`. -/
def jsFlat1 (l : List JSValue) : List JSValue :=
  l.flatMap fun v => match v with
    | .vArr inner => inner
    | v => [v]

/-- Source `RESPParser._parseSimpleString` / `_parseError` / `_parseInteger`: all
three consume one CRLF-terminated line (or leave the buffer untouched when
no CRLF is present). -/
def parseLine (b : List Char) : Option (List Char × List Char) :=
  match findCRLF b with
  | none => none
  | some i => some (jsSlice b 1 (i : Int), jsSliceFrom b ((i : Int) + 2))

/-- Source `RESPParser._parseBulkString`. -/
def parseBulkString (b : List Char) : Option JSValue × List Char :=
  match findCRLF b with
  | none => (none, b)
  | some i =>
    let lengthStr := jsSlice b 1 (i : Int)
    match jsParseInt lengthStr with
    | none => (some (.vStr ""), jsSliceFrom b ((i : Int) + 2))
    | some len =>
      if len = -1 then (none, jsSliceFrom b ((i : Int) + 2))
      else
        let dataStart : Int := (i : Int) + 2
        let dataEnd : Int := dataStart + len
        if (b.length : Int) < dataEnd + 2 then (none, b)
        else
          let data := jsSlice b dataStart dataEnd
          (some (.vStr (String.mk data)), jsSliceFrom b (dataEnd + 2))

/-- Source `RESPParser._parseInlineCommand`: split a line (terminated by `\r\n`, or
by a lone `\n` when no `\r\n` is present) into whitespace-separated tokens. -/
def parseInlineCommand (b : List Char) : Option JSValue × List Char :=
  let tokens (line : List Char) : JSValue :=
    .vArr ((splitWs line).map .vStr)
  match findCRLF b with
  | none =>
    let i := b.indexOf '\n'
    if i < b.length then (some (tokens (b.take i)), b.drop (i + 1))
    else (none, b)
  | some i => (some (tokens (b.take i)), jsSliceFrom b ((i : Int) + 2))

/-- The element loop of `RESPParser._parseArray`
(`for (let i = 0; i < length; i++)`), parameterised by the `_parseNext`
callback: an element that comes back as JS `null` (incomplete, or a RESP
null) aborts with whatever buffer mutation already happened. -/
def parseElemsWith (pn : List Char → Option JSValue × List Char) :
    Nat → List Char → Option (List JSValue) × List Char
  | 0, b => (some [], b)
  | n + 1, b =>
    match pn b with
    | (none, b') => (none, b')
    | (some v, b') =>
      match parseElemsWith pn n b' with
      | (none, b'') => (none, b'')
      | (some vs, b'') => (some (v :: vs), b'')

/-- Source `RESPParser._parseArray`, parameterised by the `_parseNext` callback:
the header line is consumed *before* the elements are parsed. -/
def parseArrayWith (pn : List Char → Option JSValue × List Char)
    (b : List Char) : Option JSValue × List Char :=
  match findCRLF b with
  | none => (none, b)
  | some i =>
    let lengthStr := jsSlice b 1 (i : Int)
    match jsParseInt lengthStr with
    | none => (some (.vArr []), jsSliceFrom b ((i : Int) + 2))
    | some len =>
      if len = -1 then (none, jsSliceFrom b ((i : Int) + 2))
      else
        let rest := jsSliceFrom b ((i : Int) + 2)
        match parseElemsWith pn len.toNat rest with
        | (none, b') => (none, b')
        | (some elems, b') => (some (.vArr (jsFlat1 elems)), b')

/-- Source `RESPParser._parseNext`: dispatch on the first byte of the buffer.  The
fuel bounds the nesting depth of arrays; every nested parse consumes at
least one character first, so `b.length + 1` fuel can never run out. -/
def parseNext : Nat → List Char → Option JSValue × List Char
  | 0, b => (none, b)
  | fuel + 1, b =>
    match b with
    | [] => (none, b)
    | c :: _ =>
      if c = '*' then parseArrayWith (fun b' => parseNext fuel b') b
      else if c = '$' then parseBulkString b
      else if c = '+' then
        match parseLine b with
        | none => (none, b)
        | some (data, rest) => (some (.vStr (String.mk data)), rest)
      else if c = '-' then
        match parseLine b with
        | none => (none, b)
        | some (data, rest) => (some (.vErr (String.mk data)), rest)
      else if c = ':' then
        match parseLine b with
        | none => (none, b)
        | some (data, rest) => (some (.vInt (jsParseInt data)), rest)
      else parseInlineCommand b

/-- Source `RESPParser.parse`: pull complete values off the buffer until it is
empty or a parse returns `null` ("need more data"). The loop runs at most
once per remaining character, so `b.length + 1` fuel is never exhausted. -/
def parseLoop (fuel : Nat) (b : List Char) : List JSValue × List Char :=
  match fuel with
  | 0 => ([], b)
  | fuel + 1 =>
    if b.isEmpty then ([], b)
    else
      match parseNext (b.length + 1) b with
      | (none, b') => ([], b')
      | (some v, b') =>
        let (vs, b'') := parseLoop fuel b'
        (v :: vs, b'')

/-- One `feed(chunk)` followed by one `parse()` on a parser whose buffer
holds `buffer`: the emitted commands and the new buffer. -/
def feedParse (buffer chunk : List Char) : List JSValue × List Char :=
  let b := buffer ++ chunk
  parseLoop (b.length + 1) b

/-! ## Key/value store with TTL (`MiniRedisStore` in tcp_client.js)

`this.store` and `this.expirations` are `Map`s; they are modelled as
functions to `Option`.  An `expirations` entry holds `expireAt` (absolute
milliseconds); the `setTimeout` handle is not modelled separately because a
pending timer for `k` exists exactly when the map has an entry for `k`
(`_clearExpiration` cancels the handle and deletes the entry together, and
the timer callback deletes the entry when it fires).  Times are rationals;
the `seconds` argument of `expire` is an `Option ℚ` whose `none` models a
non-finite JS number (`Number.isFinite(msRaw)` false ⇒ `ms = 0`). -/

structure Store where
  store : String → Option String
  expirations : String → Option ℚ

/-- The empty store (`new MiniRedisStore()`). -/
def Store.empty : Store := ⟨fun _ => none, fun _ => none⟩

/-- Source `MiniRedisStore.set`: `_clearExpiration(key)` then `store.set`. -/
def Store.set (s : Store) (key value : String) : Store where
  store := fun k => if k = key then some value else s.store k
  expirations := fun k => if k = key then none else s.expirations k

/-- Source `MiniRedisStore.get`. -/
def Store.get (s : Store) (key : String) : Option String := s.store key

/-- One iteration of the `MiniRedisStore.del` loop: `store.delete(key)`
returns whether the key was present (counting it), and the pending
expiration is always cleared. -/
def Store.delStep (acc : Nat × Store) (k : String) : Nat × Store :=
  let (n, st) := acc
  ( if (st.store k).isSome then n + 1 else n,
    { store := fun k' => if k' = k then none else st.store k'
      expirations := fun k' => if k' = k then none else st.expirations k' } )

/-- Source `MiniRedisStore.del` on a list of keys: deletes each key in
turn, returning how many were actually removed. -/
def Store.del (s : Store) (keys : List String) : Nat × Store :=
  keys.foldl Store.delStep (0, s)

/-- Source `MiniRedisStore.expire`: 0 when the key is absent; otherwise clears any
prior timer and schedules one `max 0 (seconds * 1000)` ms from now
(non-finite seconds give `ms = 0`), returning 1. -/
def Store.expire (s : Store) (key : String) (sec : Option ℚ) (now : ℚ) :
    Nat × Store :=
  if (s.store key).isSome then
    let ms : ℚ := match sec with
      | some q => max 0 (q * 1000)
      | none => 0
    ( 1,
      { store := s.store
        expirations := fun k =>
          if k = key then some (now + ms) else s.expirations k } )
  else (0, s)

/-- Source `MiniRedisStore.ttl`: −2 when absent, −1 when present without
expiration, else `Math.ceil(max 0 (expireAt − now) / 1000)`. -/
def Store.ttl (s : Store) (key : String) (now : ℚ) : Int :=
  match s.store key with
  | none => -2
  | some _ =>
    match s.expirations key with
    | none => -1
    | some expireAt => ⌈(max 0 (expireAt - now)) / 1000⌉

/-- The expiration timer callback firing for `key`: it deletes the key and
its expiration entry.  The step is enabled only while the entry exists —
`_clearExpiration` runs `clearTimeout`, so a cancelled timer never fires. -/
def Store.fire (s : Store) (key : String) : Store :=
  if (s.expirations key).isSome then
    { store := fun k => if k = key then none else s.store k
      expirations := fun k => if k = key then none else s.expirations k }
  else s

/-- The mutations that can touch the store after a `SET`: further `SET`,
`DEL`, `EXPIRE` commands and TTL timers firing. -/
inductive StoreOp where
  | oset (key value : String)
  | odel (keys : List String)
  | oexpire (key : String) (sec : Option ℚ) (now : ℚ)
  | ofire (key : String)

/-- Apply one operation. -/
def StoreOp.apply (s : Store) : StoreOp → Store
  | .oset k v => s.set k v
  | .odel ks => (s.del ks).2
  | .oexpire k sec now => (s.expire k sec now).2
  | .ofire k => s.fire k

/-- Apply a sequence of operations in order. -/
def Store.applyOps (s : Store) (ops : List StoreOp) : Store :=
  ops.foldl StoreOp.apply s

/-- Source `op` does not target key `k`. -/
def StoreOp.avoids (k : String) : StoreOp → Prop
  | .oset k' _ => k' ≠ k
  | .odel ks => k ∉ ks
  | .oexpire k' _ _ => k' ≠ k
  | .ofire k' => k' ≠ k

instance (k : String) (op : StoreOp) : Decidable (op.avoids k) := by
  cases op <;> simp [StoreOp.avoids] <;> infer_instance

/-! ## The EXPIRE command (`TCPServer.handleCommand`, EXPIRE case)

The dispatcher computes `sec = Number(args[2])` and replies with a protocol
error when `!Number.isFinite(sec) || sec < 0`; only then does it call
`kv.expire`.  Replies are the `client.send(value, type)` calls. -/

inductive Reply where
  | rsimple (s : String)
  | rerror (s : String)
  | rinteger (n : Int)
  | rbulk (s : Option String)
  | rarray (items : List RItem)
  deriving DecidableEq, Repr

/-- The EXPIRE case of `TCPServer.handleCommand` (given `sec = Number(args[2])`,
where `none` models a non-finite result of `Number`). -/
def expireCmd (s : Store) (key : String) (sec : Option ℚ) (now : ℚ) :
    Reply × Store :=
  match sec with
  | none => (.rerror "ERR value is not an integer or out of range", s)
  | some q =>
    if q < 0 then (.rerror "ERR value is not an integer or out of range", s)
    else
      let (result, s') := s.expire key (some q) now
      (.rinteger result, s')

/-! ## KEYS pattern matching (`MiniRedisStore.keys` in tcp_client.js)

`keys(pattern)` returns all keys for the pattern `"*"`; otherwise it builds
a regular expression from the pattern by the replacements `* → .*`,
`? → .`, `[class] → [class]` and tests every key against
`^pattern$`.  Crucially, no other character is escaped, so every remaining
character reaches the `RegExp` with its *regex* meaning.

The regex is modelled by a token list.  For patterns in the "safe" fragment
below (where the only regex metacharacters are `*`, `?`, `.` and simple
`[class]` groups), the constructed regex is a concatenation of: a literal
character, `.`, `.*`, or a character class — which `globTokens true`
computes.  The `RegExp` is built without the `s` (dotAll) flag, so the
regex `.` — produced by the `? → .` replacement and by a literal `.` in
the pattern, and likewise the `.` inside the `* → .*` replacement —
matches any character *except* a line terminator (`\n`, `\r`, U+2028,
U+2029); `tokensMatchP regexDotChar` interprets the tokens that way.
`globTokens false` together with `tokensMatchP (fun _ => true)` is the
matcher the claim describes (`*` any run of bytes, `?` any one byte,
every other pattern character only itself literally). -/

inductive GlobToken where
  | lit (c : Char)
  | anyOne
  | anyRun
  | cls (cs : List Char)
  deriving DecidableEq, Repr

/-- Tokenise a pattern.  `dotAny = true` gives the code's semantics (an
unescaped `.` in the generated regex matches any character); `dotAny =
false` gives the claim's glob semantics (`.` is a literal).  Fuelled so the
class case can skip past `]` structurally; each step consumes at least one
character, so `l.length` fuel never runs out. -/
def globTokensGo (dotAny : Bool) : Nat → List Char → List GlobToken
  | 0, _ => []
  | fuel + 1, l =>
    match l with
    | [] => []
    | c :: r =>
      if c = '*' then .anyRun :: globTokensGo dotAny fuel r
      else if c = '?' then .anyOne :: globTokensGo dotAny fuel r
      else if c = '[' then
        let i := r.indexOf ']'
        if 0 < i ∧ i < r.length then
          .cls (r.take i) :: globTokensGo dotAny fuel (r.drop (i + 1))
        else .lit '[' :: globTokensGo dotAny fuel r
      else if c = '.' then
        (if dotAny then .anyOne else .lit '.') :: globTokensGo dotAny fuel r
      else .lit c :: globTokensGo dotAny fuel r

/-- Tokenise with enough fuel. -/
def globTokens (dotAny : Bool) (l : List Char) : List GlobToken :=
  globTokensGo dotAny (l.length + 1) l

/-- Characters the JS regex `.` matches without the `s` (dotAll) flag:
everything except the line terminators `\n`, `\r`, U+2028 and U+2029. -/
def regexDotChar (c : Char) : Bool :=
  !(c = '\n' || c = '\r' || c.toNat = 0x2028 || c.toNat = 0x2029)

/-- Token-list matching against a character string, parameterised by the
set of characters a wildcard position may consume: `anyOne` (the regex
`.`) matches one such character, and `anyRun` (the regex `.*`) matches a
run of them followed by a match of the remaining tokens.  The code's
matcher uses `regexDotChar`; the claim's any-byte glob semantics is the
same matcher with `fun _ => true`. -/
def tokensMatchP (dotOk : Char → Bool) : List GlobToken → List Char → Bool
  | [], s => s.isEmpty
  | .lit c :: ts, s =>
    match s with
    | [] => false
    | c' :: s' => c' = c && tokensMatchP dotOk ts s'
  | .anyOne :: ts, s =>
    match s with
    | [] => false
    | c' :: s' => dotOk c' && tokensMatchP dotOk ts s'
  | .cls cs :: ts, s =>
    match s with
    | [] => false
    | c' :: s' => cs.contains c' && tokensMatchP dotOk ts s'
  | .anyRun :: ts, s =>
    (List.range (s.length + 1)).any fun n =>
      (s.take n).all dotOk && tokensMatchP dotOk ts (s.drop n)

/-- Source `MiniRedisStore.keys` on the stored key list: `"*"` returns every key,
any other pattern filters the keys through the constructed regex
(`dotAny = true`, wildcards restricted to non-line-terminator characters
because the `RegExp` has no dotAll flag). -/
def storeKeys (allKeys : List String) (pattern : String) : List String :=
  if pattern = "*" then allKeys
  else allKeys.filter fun k =>
    tokensMatchP regexDotChar (globTokens true pattern.toList) k.toList

/-- The claim's glob semantics for one key: `*` any run of bytes, `?` any
one byte, `[class]` one byte of the class, every other character only
itself. -/
def specGlobMatch (pattern key : String) : Bool :=
  tokensMatchP (fun _ => true) (globTokens false pattern.toList) key.toList

/-- The characters the safe pattern fragment allows as literals: none of
them is a regex metacharacter (inside or outside a class). -/
def safePlainChar (c : Char) : Bool :=
  c.isAlphanum || c = '_' || c = ' ' || c = ':' || c = '/' || c = ','

/-- Patterns whose generated regex the token model captures: only `*`, `?`,
`.` and nonempty classes of plain characters, plain characters elsewhere. -/
def safePatternGo : Nat → List Char → Bool
  | 0, _ => false
  | fuel + 1, l =>
    match l with
    | [] => true
    | c :: r =>
      if c = '*' then safePatternGo fuel r
      else if c = '?' then safePatternGo fuel r
      else if c = '[' then
        let i := r.indexOf ']'
        if 0 < i ∧ i < r.length then
          (r.take i).all safePlainChar && safePatternGo fuel (r.drop (i + 1))
        else false
      else if c = '.' then safePatternGo fuel r
      else safePlainChar c && safePatternGo fuel r

/-- Safe patterns, with enough fuel. -/
def safePattern (pattern : String) : Bool :=
  safePatternGo (pattern.toList.length + 1) pattern.toList

/-! ## Output multiplexer (`IOMultiplexer` in io_multiflexing.js)

One slot (`this.queues.get(socket)`) holds three FIFO queues.  Metrics,
health bookkeeping and timers do not influence queue contents and are not
modelled.  `Date.now()`-based message ids are passed in as a parameter
`msgId`; message timestamps are omitted (no queue decision reads them). -/

inductive QPrio where
  | priority
  | normal
  | low
  deriving DecidableEq, Repr

structure QMsg where
  content : String
  prio : QPrio
  size : Nat
  compressed : Bool
  chunked : Bool
  deriving DecidableEq, Repr

structure Queues where
  priority : List QMsg
  normal : List QMsg
  low : List QMsg
  deriving DecidableEq, Repr

def Queues.empty : Queues := ⟨[], [], []⟩

/-- Source `queues.priority.length + queues.normal.length + queues.low.length`. -/
def Queues.total (q : Queues) : Nat :=
  q.priority.length + q.normal.length + q.low.length

/-- Source `queues[priority].push(message)`. -/
def Queues.push (q : Queues) (p : QPrio) (m : QMsg) : Queues :=
  match p with
  | .priority => { q with priority := q.priority ++ [m] }
  | .normal => { q with normal := q.normal ++ [m] }
  | .low => { q with low := q.low ++ [m] }

/-- The three queues flattened in drain order (priority, normal, low). -/
def Queues.flatten (q : Queues) : List QMsg :=
  q.priority ++ q.normal ++ q.low

/-- The configuration fields of `IOMultiplexer.options` that influence
queue contents (defaults: 1000 / 1024 / 8192). -/
structure MuxOptions where
  maxQueueSize : Nat := 1000
  compressionThreshold : Nat := 1024
  maxChunkSize : Nat := 8192

/-- Collapse every whitespace run to a single space
(`content.replace(/\s+/g, " ")`); the flag records whether the previous
character was part of a whitespace run. -/
def collapseWsGo : Bool → List Char → List Char
  | _, [] => []
  | prevWs, c :: r =>
    if jsWhitespace c then
      if prevWs then collapseWsGo true r
      else ' ' :: collapseWsGo true r
    else c :: collapseWsGo false r

/-- Source `IOMultiplexer._compressMessage`:
`content.replace(/\s+/g, " ").trim()` — lossy whitespace collapsing. -/
def compressMessage (s : String) : String :=
  String.mk (jsTrim (collapseWsGo false s.toList))

/-- Cut a string into `⌈n / size⌉` pieces of `size` characters
(`processedMessage.substring(i, i + chunkSize)` for `i += chunkSize`).
A chunk size of 0 cannot arise with the default `maxChunkSize` (the JS
loop would not terminate); it is mapped to no chunks. -/
def chunkPieces (l : List Char) (size : Nat) : List (List Char) :=
  if size = 0 then []
  else (List.range ((l.length + size - 1) / size)).map fun j =>
    (l.drop (j * size)).take size

/-- The result of `_processMessageSync`: either a list of chunk payloads or
a single (possibly compressed) message. -/
structure ProcResult where
  chunks : Option (List String)
  message : String
  compressed : Bool
  deriving DecidableEq, Repr

/-- Source `IOMultiplexer._processMessageSync`: try lossy compression above
`compressionThreshold` (kept only when the result is under 80 % of the
original, modelled as the exact rational comparison `5·|c| < 4·|line|`),
then chunk if still over `maxChunkSize`, with `CHUNK:<id>:<i>:<n>:` headers
and `chunkSize = maxChunkSize - 100`. -/
def processMessageSync (opts : MuxOptions) (msgId : String) (line : String) :
    ProcResult :=
  let originalSize := line.length
  let (processedMessage, compressed) :=
    if originalSize > opts.compressionThreshold then
      let c := compressMessage line
      if 5 * c.length < 4 * originalSize then (c, true) else (line, false)
    else (line, false)
  if processedMessage.length > opts.maxChunkSize then
    let chunkSize := opts.maxChunkSize - 100
    let pieces := chunkPieces processedMessage.toList chunkSize
    let totalChunks := pieces.length
    let chunks := pieces.enum.map fun (idx, piece) =>
      "CHUNK:" ++ msgId ++ ":" ++ toString idx ++ ":" ++ toString totalChunks
        ++ ":" ++ String.mk piece
    ⟨some chunks, processedMessage, compressed⟩
  else ⟨none, processedMessage, compressed⟩

/-- One queued chunk (`chunked: true`; the object spread carries no
`compressed` field, so it is falsy). -/
def mkChunkMsg (p : QPrio) (chunk : String) : QMsg :=
  ⟨enqueueContent chunk, p, chunk.length, false, true⟩

/-- Source `IOMultiplexer.enqueue` for one registered/unregistered slot: the
queue-full drop policy, then message processing, then the push.  Returns
the boolean the method returns together with the new queues. -/
def enqueue (opts : MuxOptions) (msgId : String) (registered : Bool)
    (q : Queues) (line : String) (p : QPrio) : Bool × Queues :=
  if !registered then (false, q)
  else
    let afterDrop : Option Queues :=
      if q.total ≥ opts.maxQueueSize then
        if p = .low ∨ (p = .normal ∧ q.low ≠ []) then
          if q.low ≠ [] then some { q with low := q.low.tail }
          else none
        else if p = .normal ∧ q.normal.length > 2 * q.priority.length then
          some { q with normal := q.normal.tail }
        else some q
      else some q
    match afterDrop with
    | none => (false, q)
    | some q1 =>
      let proc := processMessageSync opts msgId line
      match proc.chunks with
      | some chunks =>
        (true, chunks.foldl (fun acc c => acc.push p (mkChunkMsg p c)) q1)
      | none =>
        let finalContent := enqueueContent proc.message
        let content :=
          if proc.compressed then "COMPRESSED:" ++ finalContent else finalContent
        (true, q1.push p ⟨content, p, line.length, proc.compressed, false⟩)

/-- The queue entry built for a payload that is neither compressed nor
chunked (the `finalMessage` object of `enqueue`). -/
def plainMsg (line : String) (p : QPrio) : QMsg :=
  ⟨enqueueContent line, p, line.length, false, false⟩

/-! ### Broadcast (`IOMultiplexer.broadcast` / `_broadcastInChunks`) -/

/-- A target socket as `broadcast` sees it: the `destroyed` flag, whether
`registerSocket` ran for it, and its slot. -/
structure Sock where
  destroyed : Bool
  registered : Bool
  q : Queues
  deriving DecidableEq, Repr

/-- One loop iteration of `broadcast`: a destroyed socket counts as a
failure and is skipped, otherwise `enqueue` decides. -/
def broadcastStep (opts : MuxOptions) (msgId line : String) (p : QPrio)
    (acc : Nat × Nat × List Sock) (s : Sock) : Nat × Nat × List Sock :=
  let (succ, fail, done) := acc
  if s.destroyed then (succ, fail + 1, done ++ [s])
  else
    let (ok, q') := enqueue opts msgId s.registered s.q line p
    if ok then (succ + 1, fail, done ++ [{ s with q := q' }])
    else (succ, fail + 1, done ++ [{ s with q := q' }])

/-- The synchronous loop of `broadcast` (the `socketArray.length ≤ 100`
path), returning `(successCount, failureCount, updated sockets)`. -/
def broadcastSync (opts : MuxOptions) (msgId line : String) (p : QPrio)
    (socks : List Sock) : Nat × Nat × List Sock :=
  socks.foldl (broadcastStep opts msgId line p) (0, 0, [])

/-- Source `IOMultiplexer._broadcastInChunks`: process 50 sockets, yield, repeat.
Fuelled (each step consumes at least one socket, so `socks.length + 1`
fuel never runs out). -/
def broadcastInChunksGo (opts : MuxOptions) (msgId line : String) (p : QPrio) :
    Nat → List Sock → Nat × Nat × List Sock
  | 0, socks => (0, 0, socks)
  | fuel + 1, socks =>
    if socks.isEmpty then (0, 0, [])
    else
      let (s1, f1, upd) := broadcastSync opts msgId line p (socks.take 50)
      let (s2, f2, rest) :=
        broadcastInChunksGo opts msgId line p fuel (socks.drop 50)
      (s1 + s2, f1 + f2, upd ++ rest)

/-- Source `_broadcastInChunks` with enough fuel. -/
def broadcastInChunks (opts : MuxOptions) (msgId line : String) (p : QPrio)
    (socks : List Sock) : Nat × Nat × List Sock :=
  broadcastInChunksGo opts msgId line p (socks.length + 1) socks

/-- Source `IOMultiplexer.broadcast`: at most 100 sockets are processed
synchronously and counted; a larger broadcast is handed to the async
`_broadcastInChunks`, whose counts are *not* awaited — the method then
returns its local `successCount`/`failureCount`, still `(0, 0)`. -/
def broadcast (opts : MuxOptions) (msgId line : String) (p : QPrio)
    (socks : List Sock) : (Nat × Nat) × List Sock :=
  if socks.length > 100 then
    let (_, _, socks') := broadcastInChunks opts msgId line p socks
    ((0, 0), socks')
  else
    let (s, f, socks') := broadcastSync opts msgId line p socks
    ((s, f), socks')

/-! ### Flush (`IOMultiplexer._flush`) -/

/-- The bytes `_flush` hands to `socket.write` for a queued message: a
compressed message has its `COMPRESSED:` prefix stripped first. -/
def flushOutContent (m : QMsg) : String :=
  if m.compressed && jsStartsWith m.content "COMPRESSED:" then
    jsDropStr m.content 11
  else m.content

/-- The inner `while (queue.length > 0)` loop of `_flush`: write the head;
a `false` return from `socket.write` (backpressure) stops the loop and
leaves the message at the queue head.  `writeOk n` is the boolean returned
by the `n`-th write of this flush; returns (contents written, remaining
queue, next write index). -/
def flushQueueGo (writeOk : Nat → Bool) :
    Nat → List QMsg → List String × List QMsg × Nat
  | idx, [] => ([], [], idx)
  | idx, m :: rest =>
    let c := flushOutContent m
    if writeOk idx then
      let (ws, rem, idx') := flushQueueGo writeOk (idx + 1) rest
      (c :: ws, rem, idx')
    else ([c], m :: rest, idx + 1)

/-- Source `IOMultiplexer._flush`: drain the priority queue, then (only if it was
fully drained) the normal queue, then the low queue; backpressure on any
queue stops the whole flush.  Returns the contents passed to
`socket.write`, in order, and the remaining queues. -/
def flush (writeOk : Nat → Bool) (q : Queues) : List String × Queues :=
  if q.total = 0 then ([], q)
  else
    let (w1, p', i1) := flushQueueGo writeOk 0 q.priority
    if p'.isEmpty then
      let (w2, n', i2) := flushQueueGo writeOk i1 q.normal
      if n'.isEmpty then
        let (w3, l', _) := flushQueueGo writeOk i2 q.low
        (w1 ++ w2 ++ w3, ⟨p', n', l'⟩)
      else (w1 ++ w2, ⟨p', n', q.low⟩)
    else (w1, ⟨p', q.normal, q.low⟩)

/-! ## Pub/sub membership (`PubSub` in pubsub.js and the dispatcher)

`this.channels` is a `Map<channel, Set<Client>>`; clients are identified by
opaque ids (`Nat`).  The `Map` is an association list in insertion order
with unique keys, a `Set` a duplicate-free list in insertion order.  The
dispatcher-side state is each client's `subscribed` set and the set of live
connections.  Priority groups, metrics and the message buffer do not feed
back into membership and are not modelled. -/

/-- Source `Set.add`: append if absent. -/
def addIfAbsent (c : Nat) (l : List Nat) : List Nat :=
  if c ∈ l then l else l ++ [c]

/-- Source `Map.get` composed over the association list (first matching key). -/
def chanMembers : List (String × List Nat) → String → List Nat
  | [], _ => []
  | e :: rest, ch => if e.1 = ch then e.2 else chanMembers rest ch

/-- Source `PubSub.subscribe`'s effect on `this.channels`: create the channel on
first use, then add the client to its set. -/
def psSubscribeCh (c : Nat) (ch : String) :
    List (String × List Nat) → List (String × List Nat)
  | [] => [(ch, [c])]
  | e :: rest =>
    if e.1 = ch then (e.1, addIfAbsent c e.2) :: rest
    else e :: psSubscribeCh c ch rest

/-- Source `PubSub.unsubscribe`'s effect on `this.channels`: no-op for an unknown
channel; otherwise delete the client and drop the channel when its set
becomes empty. -/
def psUnsubscribeCh (c : Nat) (ch : String) :
    List (String × List Nat) → List (String × List Nat)
  | [] => []
  | e :: rest =>
    if e.1 = ch then
      let l' := e.2.erase c
      if l' = [] then rest else (e.1, l') :: rest
    else e :: psUnsubscribeCh c ch rest

/-- Source `PubSub.unsubscribeAll`: unsubscribe the client from every channel
whose set contains it (the net effect of the snapshot-then-loop). -/
def psUnsubAllCh (c : Nat) :
    List (String × List Nat) → List (String × List Nat)
  | [] => []
  | e :: rest =>
    if c ∈ e.2 then
      let l' := e.2.erase c
      if l' = [] then psUnsubAllCh c rest else (e.1, l') :: psUnsubAllCh c rest
    else e :: psUnsubAllCh c rest

/-- Broker membership plus the dispatcher-side connection state. -/
structure PS where
  channels : List (String × List Nat)
  subs : Nat → List String
  live : List Nat

/-- Server start: no channels, no connections. -/
def PS.init : PS := ⟨[], fun _ => [], []⟩

/-- The membership-changing events: a connection is accepted (a fresh
`Client` object with an empty `subscribed` set), one channel of a
SUBSCRIBE / UNSUBSCRIBE command is processed, or a connection closes
(`handleClientClose` → `unsubscribeAll`). -/
inductive PSOp where
  | connect (c : Nat)
  | subscribe (c : Nat) (ch : String)
  | unsubscribe (c : Nat) (ch : String)
  | close (c : Nat)

/-- Apply one event.  A SUBSCRIBE from a live client adds the channel to
`client.subscribed` and calls `ps.subscribe` only when it was absent
(`if (!client.subscribed.has(ch))` in `handleCommand`); UNSUBSCRIBE is the
mirror image.  Events for non-live clients cannot occur and are no-ops. -/
def PSOp.apply (st : PS) : PSOp → PS
  | .connect c =>
    if c ∈ st.live then st
    else
      { channels := st.channels
        subs := fun c' => if c' = c then [] else st.subs c'
        live := st.live ++ [c] }
  | .subscribe c ch =>
    if c ∈ st.live ∧ ch ∉ st.subs c then
      { channels := psSubscribeCh c ch st.channels
        subs := fun c' => if c' = c then st.subs c ++ [ch] else st.subs c'
        live := st.live }
    else st
  | .unsubscribe c ch =>
    if c ∈ st.live ∧ ch ∈ st.subs c then
      { channels := psUnsubscribeCh c ch st.channels
        subs := fun c' => if c' = c then (st.subs c).erase ch else st.subs c'
        live := st.live }
    else st
  | .close c =>
    if c ∈ st.live then
      { channels := psUnsubAllCh c st.channels
        subs := st.subs
        live := st.live.erase c }
    else st

/-- Apply a sequence of events in order. -/
def PS.applyOps (st : PS) (ops : List PSOp) : PS :=
  ops.foldl PSOp.apply st

/-- The broker/dispatcher membership invariant: live-connection ids and
channel keys are duplicate-free, every channel entry is a nonempty
duplicate-free set of live connections, every `subscribed` set is
duplicate-free, and membership is symmetric for live connections. -/
structure ChanInv (st : PS) : Prop where
  liveNodup : st.live.Nodup
  keysNodup : (st.channels.map Prod.fst).Nodup
  entriesNonempty : ∀ e ∈ st.channels, e.2 ≠ []
  entriesNodup : ∀ e ∈ st.channels, e.2.Nodup
  entriesLive : ∀ e ∈ st.channels, ∀ c ∈ e.2, c ∈ st.live
  subsNodup : ∀ c : Nat, (st.subs c).Nodup
  symm : ∀ c ∈ st.live, ∀ ch : String,
    c ∈ chanMembers st.channels ch ↔ ch ∈ st.subs c

/-! ## Connection replies (`TCPClient.send` in tcp_client.js)

`send(data, type)` writes `data` verbatim when it is a string that already
starts with a RESP type marker; otherwise it runs `RESPFormatter.format`.
The values the dispatcher passes are strings, numbers, `null`, and flat
arrays of strings/numbers/nulls. -/

inductive SendVal where
  | vs (s : String)
  | vn (n : Int)
  | vnull
  | varr (items : List RItem)
  deriving DecidableEq, Repr

inductive SendType where
  | simple
  | error
  | integer
  | bulk
  | array
  deriving DecidableEq, Repr

/-- JS `String(value)` for the values `send` can receive (`Array.prototype`
stringification joins elements with `,`, rendering `null` as empty). -/
def jsToString : SendVal → String
  | .vs s => s
  | .vn n => toString n
  | .vnull => "null"
  | .varr items =>
    String.intercalate ","
      (items.map fun it =>
        match it with
        | .rstr s => s
        | .rint n => toString n
        | .rnull => "")

/-- Source `RESPFormatter.format`.  `none` models the `TypeError` the JS code
throws when `array` formatting iterates a non-iterable value (a string is
iterated character by character; `null` formats as the null array). -/
def respFormat (v : SendVal) (t : SendType) : Option String :=
  match t with
  | .simple => some (respSimpleString (jsToString v))
  | .error => some (respError (jsToString v))
  | .integer => some (":" ++ jsToString v ++ "\r\n")
  | .bulk =>
    match v with
    | .vnull => some "$-1\r\n"
    | v => some (respBulkString (some (jsToString v)))
  | .array =>
    match v with
    | .vnull => some "*-1\r\n"
    | .varr items => some (respArray items)
    | .vs s => some (respArray (s.toList.map fun c => .rstr (String.mk [c])))
    | .vn _ => none

/-- Source `TCPClient.send`: a string starting with `+`, `-`, `:`, `$` or `*` is
treated as "already RESP formatted" and passed through verbatim. -/
def clientSend (v : SendVal) (t : SendType) : Option String :=
  match v with
  | .vs s =>
    if jsStartsWith s "+" || jsStartsWith s "-" || jsStartsWith s ":"
        || jsStartsWith s "$" || jsStartsWith s "*" then some s
    else respFormat v t
  | v => respFormat v t

/-- The GET case of `handleCommand`: `client.send(val, "bulk")` where `val`
is the stored string or `null`. -/
def getReplyBytes (stored : Option String) : Option String :=
  clientSend (match stored with | some v => .vs v | none => .vnull) .bulk

/-! # Theorems -/

/-- C1: the bytes a subscriber receives for `PUBLISH news hi` are the plain
line `message news hi` (with the multiplexer's appended `"\n"`), not the
RESP three-element array the claim states — even though the repository's
own `RESPFormatter.array` would render `["message", "news", "hi"]` exactly
as the claim's `*3\r\n$7\r\nmessage\r\n$4\r\nnews\r\n$2\r\nhi\r\n`. -/
theorem publish_payload_is_plain_text_not_resp :
    enqueueContent (pubsubFormattedMessage "news" "hi") = "message news hi\n" ∧
    respArray [.rstr "message", .rstr "news", .rstr "hi"] =
      "*3\r\n$7\r\nmessage\r\n$4\r\nnews\r\n$2\r\nhi\r\n" ∧
    enqueueContent (pubsubFormattedMessage "news" "hi") ≠
      respArray [.rstr "message", .rstr "news", .rstr "hi"] :=
  ⟨by decide, by decide, by decide⟩

/-- C2: feeding the valid stream `*2\r\n$3\r\nfoo\r\n$3\r\nbar\r\n` in one
piece yields exactly the one encoded command, but feeding the prefix
`*2\r\n$3\r\nfoo\r\n` consumes the truncated array's header and first
element (the buffer is left empty instead of intact), and feeding the rest
then produces the spurious top-level command `bar`. -/
theorem parser_truncated_array_not_preserved :
    feedParse [] ("*2\r\n$3\r\nfoo\r\n$3\r\nbar\r\n".toList) =
      ([.vArr [.vStr "foo", .vStr "bar"]], []) ∧
    feedParse [] ("*2\r\n$3\r\nfoo\r\n".toList) = ([], []) ∧
    feedParse (feedParse [] ("*2\r\n$3\r\nfoo\r\n".toList)).2
        ("$3\r\nbar\r\n".toList) =
      ([.vStr "bar"], []) :=
  ⟨rfl, rfl, rfl⟩

/-- C3, counterexample: with `maxQueueSize = 2` and a slot already holding
two NORMAL messages, a PRIORITY enqueue is admitted without any drop, so
the total grows to 3 — the total is not bounded by `maxQueueSize`, and no
oldest-LOW drop happens on this at-capacity enqueue. -/
theorem enqueue_total_exceeds_maxQueueSize :
    (enqueue ⟨2, 1024, 8192⟩ "id" true
        ⟨[], [⟨"x\n", .normal, 1, false, false⟩, ⟨"x\n", .normal, 1, false, false⟩], []⟩
        "a" .priority).1 = true ∧
    ((enqueue ⟨2, 1024, 8192⟩ "id" true
        ⟨[], [⟨"x\n", .normal, 1, false, false⟩, ⟨"x\n", .normal, 1, false, false⟩], []⟩
        "a" .priority).2).total = 3 ∧
    ¬ 3 ≤ (2 : Nat) :=
  ⟨by decide, by decide, by decide⟩

/-- C5, counterexample: for a present key, `EXPIRE k -1` is answered with
the protocol error reply and leaves the store untouched — it does not
schedule an immediate expiration and return 1 as the claim states. -/
theorem expire_negative_seconds_rejected :
    expireCmd (Store.empty.set "k" "v") "k" (some (-1)) 0 =
      (.rerror "ERR value is not an integer or out of range",
       Store.empty.set "k" "v") ∧
    (expireCmd (Store.empty.set "k" "v") "k" (some (-1)) 0).1 ≠ .rinteger 1 :=
  ⟨rfl, by decide⟩

/-- C6, counterexample: broadcasting to 101 healthy registered sockets
returns the counts `(0, 0)` — not `(101, 0)` — because the chunked path's
counts are never awaited, even though the chunked path itself enqueues
into all 101 slots successfully. -/
theorem broadcast_large_returns_zero_counts :
    (broadcast {} "id" "hi" .normal
        (List.replicate 101 ⟨false, true, Queues.empty⟩)).1 = (0, 0) ∧
    (broadcastInChunks {} "id" "hi" .normal
        (List.replicate 101 ⟨false, true, Queues.empty⟩)).1 = 101 ∧
    (broadcastInChunks {} "id" "hi" .normal
        (List.replicate 101 ⟨false, true, Queues.empty⟩)).2.1 = 0 ∧
    ((0, 0) : Nat × Nat) ≠ (101, 0) :=
  ⟨by decide, by decide, by decide, by decide⟩

/-- C9, counterexample: the pattern `a.b` contains no glob wildcard, so
under the claim's semantics it matches only the key `a.b`; but the code
passes `.` through to the regular expression, where it matches any single
character, so `KEYS a.b` returns the key `axb`. -/
theorem keys_dot_matches_any_character :
    storeKeys ["axb"] "a.b" = ["axb"] ∧
    ["axb"].filter (fun k => specGlobMatch "a.b" k) = [] ∧
    storeKeys ["axb"] "a.b" ≠ ["axb"].filter (fun k => specGlobMatch "a.b" k) :=
  ⟨by decide, by decide, by decide⟩

lemma del_foldl_preserves {k : String} :
    ∀ (ks : List String) (acc : Nat × Store), k ∉ ks →
      ((ks.foldl Store.delStep acc).2).store k = (acc.2).store k ∧
      ((ks.foldl Store.delStep acc).2).expirations k = (acc.2).expirations k := by
  intro ks
  induction ks with
  | nil => intro acc _; exact ⟨rfl, rfl⟩
  | cons a rest ih =>
    intro acc hk
    have ha : k ≠ a := fun h => hk (h ▸ List.mem_cons_self a rest)
    have hrest : k ∉ rest := fun h => hk (List.mem_cons_of_mem _ h)
    rw [List.foldl_cons]
    obtain ⟨hs, he⟩ := ih (Store.delStep acc a) hrest
    exact ⟨by rw [hs]; simp [Store.delStep, ha],
           by rw [he]; simp [Store.delStep, ha]⟩

lemma storeOp_apply_preserves {k v : String} {s : Store} {op : StoreOp}
    (hav : op.avoids k) (h1 : s.store k = some v) (h2 : s.expirations k = none) :
    (StoreOp.apply s op).store k = some v ∧
      (StoreOp.apply s op).expirations k = none := by
  cases op with
  | oset k' v' =>
    have hk : k ≠ k' := fun h => hav h.symm
    simp [StoreOp.apply, Store.set, StoreOp.avoids, hk, h1, h2]
  | odel ks =>
    have hk : k ∉ ks := hav
    obtain ⟨hs, he⟩ := del_foldl_preserves ks (0, s) hk
    exact ⟨by simpa [StoreOp.apply, Store.del, hs] using h1,
           by simpa [StoreOp.apply, Store.del, he] using h2⟩
  | oexpire k' sec now =>
    have hk : k ≠ k' := fun h => hav h.symm
    by_cases hp : (s.store k').isSome <;>
      simp [StoreOp.apply, Store.expire, hp, hk, h1, h2]
  | ofire k' =>
    have hk : k ≠ k' := fun h => hav h.symm
    by_cases hp : (s.expirations k').isSome <;>
      simp [StoreOp.apply, Store.fire, hp, hk, h1, h2]

lemma applyOps_preserves {k v : String} :
    ∀ (ops : List StoreOp) (s : Store), (∀ op ∈ ops, op.avoids k) →
      s.store k = some v → s.expirations k = none →
      (Store.applyOps s ops).store k = some v ∧
        (Store.applyOps s ops).expirations k = none := by
  intro ops
  induction ops with
  | nil => intro s _ h1 h2; simpa [Store.applyOps] using ⟨h1, h2⟩
  | cons op rest ih =>
    intro s h h1 h2
    obtain ⟨h1', h2'⟩ :=
      storeOp_apply_preserves (h op (List.mem_cons_self op rest)) h1 h2
    simpa [Store.applyOps] using ih (StoreOp.apply s op)
      (fun o ho => h o (List.mem_cons_of_mem _ ho)) h1' h2'

/-- C4: after `SET k v`, any sequence of further `SET`/`DEL`/`EXPIRE`
commands and timer firings that do not target `k` leaves `GET k = v` and
`TTL k = -1` (the `SET` replaced the value and cleared any TTL). -/
theorem set_get_ttl_roundtrip (s : Store) (k v : String) (now : ℚ)
    (ops : List StoreOp) (h : ∀ op ∈ ops, op.avoids k) :
    ((s.set k v).applyOps ops).get k = some v ∧
    ((s.set k v).applyOps ops).ttl k now = -1 := by
  have base1 : (s.set k v).store k = some v := by simp [Store.set]
  have base2 : (s.set k v).expirations k = none := by simp [Store.set]
  obtain ⟨h1, h2⟩ := applyOps_preserves ops (s.set k v) h base1 base2
  exact ⟨h1, by simp [Store.ttl, h1, h2]⟩

/-- Witness for C4 at a concrete store and operation list. -/
theorem set_get_ttl_roundtrip_witness :
    (∀ op ∈ [StoreOp.oset "a" "b", StoreOp.ofire "a"], op.avoids "k") ∧
    ((Store.empty.set "k" "v").applyOps
        [StoreOp.oset "a" "b", StoreOp.ofire "a"]).get "k" = some "v" ∧
    ((Store.empty.set "k" "v").applyOps
        [StoreOp.oset "a" "b", StoreOp.ofire "a"]).ttl "k" 0 = -1 := by
  have h : ∀ op ∈ [StoreOp.oset "a" "b", StoreOp.ofire "a"], op.avoids "k" := by
    decide
  exact ⟨h, set_get_ttl_roundtrip Store.empty "k" "v" 0 _ h⟩

/-- C5, amended: the EXPIRE command replies with the protocol error for
non-finite *and* for negative seconds (negatives never reach the store);
for finite `sec ≥ 0` it returns 0 when the key is absent and otherwise
replaces any prior deadline with `now + sec * 1000` ms and returns 1. -/
theorem expireCmd_behavior (s : Store) (key : String) (now : ℚ) :
    (∀ sec : Option ℚ, (sec = none ∨ ∃ q, sec = some q ∧ q < 0) →
      expireCmd s key sec now =
        (.rerror "ERR value is not an integer or out of range", s)) ∧
    (∀ q : ℚ, 0 ≤ q → s.store key = none →
      expireCmd s key (some q) now = (.rinteger 0, s)) ∧
    (∀ q : ℚ, 0 ≤ q → (s.store key).isSome →
      expireCmd s key (some q) now =
        (.rinteger 1,
          { store := s.store
            expirations := fun k =>
              if k = key then some (now + q * 1000) else s.expirations k })) := by
  refine ⟨?_, ?_, ?_⟩
  · rintro sec (rfl | ⟨q, rfl, hq⟩)
    · rfl
    · simp [expireCmd, hq]
  · intro q hq habs
    simp [expireCmd, not_lt.mpr hq, Store.expire, habs]
  · intro q hq hsome
    have hmax : max (0 : ℚ) (q * 1000) = q * 1000 :=
      max_eq_right (by positivity)
    simp [expireCmd, not_lt.mpr hq, Store.expire, hsome, hmax]

/-- Witness for C5's amended theorem: `EXPIRE k 5` on a store holding `k`. -/
theorem expireCmd_behavior_witness :
    expireCmd (Store.empty.set "k" "v") "k" (some 5) 0 =
      (.rinteger 1,
        { store := (Store.empty.set "k" "v").store
          expirations := fun k =>
            if k = "k" then some ((0 : ℚ) + 5 * 1000)
            else (Store.empty.set "k" "v").expirations k }) :=
  (expireCmd_behavior (Store.empty.set "k" "v") "k" 0).2.2 5 (by norm_num)
    (by decide)

lemma globTokensGo_nodot :
    ∀ (fuel : Nat) (l : List Char), '.' ∉ l →
      globTokensGo true fuel l = globTokensGo false fuel l := by
  intro fuel
  induction fuel with
  | zero => intro l _; rfl
  | succ fuel ih =>
    intro l hl
    cases l with
    | nil => rfl
    | cons c r =>
      have hc : c ≠ '.' := fun h => hl (h ▸ List.mem_cons_self c r)
      have hr : '.' ∉ r := fun h => hl (List.mem_cons_of_mem _ h)
      have hdrop : ∀ n, '.' ∉ r.drop n := fun n h => hr (List.drop_subset n r h)
      simp only [globTokensGo]
      split_ifs <;>
        first
        | exact absurd (by assumption : c = '.') hc
        | rw [ih _ (hdrop _)]
        | rw [ih r hr]

lemma any_congr_mem {α : Type} {f g : α → Bool} :
    ∀ {l : List α}, (∀ a ∈ l, f a = g a) → l.any f = l.any g
  | [], _ => rfl
  | a :: l, h => by
    rw [List.any_cons, List.any_cons, h a (List.mem_cons_self a l),
      any_congr_mem fun b hb => h b (List.mem_cons_of_mem a hb)]

lemma tokensMatchP_congr_of_dotOk {dotOk : Char → Bool} :
    ∀ (ts : List GlobToken) (s : List Char), (∀ c ∈ s, dotOk c = true) →
      tokensMatchP dotOk ts s = tokensMatchP (fun _ => true) ts s
  | [], s, _ => rfl
  | .lit c :: ts, s, h => by
    cases s with
    | nil => rfl
    | cons c' s' =>
      simp only [tokensMatchP]
      rw [tokensMatchP_congr_of_dotOk ts s'
        fun b hb => h b (List.mem_cons_of_mem c' hb)]
  | .anyOne :: ts, s, h => by
    cases s with
    | nil => rfl
    | cons c' s' =>
      simp only [tokensMatchP]
      rw [h c' (List.mem_cons_self c' s'),
        tokensMatchP_congr_of_dotOk ts s'
          fun b hb => h b (List.mem_cons_of_mem c' hb)]
  | .cls cs :: ts, s, h => by
    cases s with
    | nil => rfl
    | cons c' s' =>
      simp only [tokensMatchP]
      rw [tokensMatchP_congr_of_dotOk ts s'
        fun b hb => h b (List.mem_cons_of_mem c' hb)]
  | .anyRun :: ts, s, h => by
    simp only [tokensMatchP]
    refine any_congr_mem fun n _ => ?_
    have htake : (s.take n).all dotOk = true :=
      List.all_eq_true.mpr fun c hc => h c (List.mem_of_mem_take hc)
    have hdrop : ∀ c ∈ s.drop n, dotOk c = true :=
      fun c hc => h c (List.mem_of_mem_drop hc)
    rw [htake, tokensMatchP_congr_of_dotOk ts (s.drop n) hdrop]
    simp

lemma spec_anyRun_matches_all (s : List Char) :
    tokensMatchP (fun _ => true) [.anyRun] s = true := by
  simp only [tokensMatchP]
  refine List.any_eq_true.mpr ⟨s.length, by simp, ?_⟩
  simp [tokensMatchP]

/-- C9, amended: on the safe pattern fragment (no regex metacharacters
other than `*`, `?`, `.` and plain classes), with no `.` in the pattern,
and over keys containing no line terminators, `KEYS` agrees with the
claim's glob semantics; `.` itself is passed through with its regex
meaning (see the counterexample), and on keys containing a line
terminator the compiled `.`/`.*` wildcards refuse to match it. -/
theorem keys_glob_on_safe_patterns (allKeys : List String) (pattern : String)
    (hsafe : safePattern pattern = true) (hnodot : '.' ∉ pattern.toList)
    (hkeys : ∀ k ∈ allKeys, k.toList.all regexDotChar = true) :
    storeKeys allKeys pattern = allKeys.filter fun k => specGlobMatch pattern k := by
  by_cases hstar : pattern = "*"
  · subst hstar
    have hall : ∀ k : String, specGlobMatch "*" k = true := fun k =>
      spec_anyRun_matches_all k.toList
    simp [storeKeys, hall]
  · have htok : globTokens true pattern.toList = globTokens false pattern.toList :=
      globTokensGo_nodot _ _ hnodot
    unfold storeKeys specGlobMatch
    rw [if_neg hstar, htok]
    refine List.filter_congr fun k hk => ?_
    exact tokensMatchP_congr_of_dotOk _ k.toList
      fun c hc => List.all_eq_true.mp (hkeys k hk) c hc

/-- Witness for C9's amended theorem on a concrete key set and pattern. -/
theorem keys_glob_on_safe_patterns_witness :
    safePattern "f?o*" = true ∧ '.' ∉ "f?o*".toList ∧
    (∀ k ∈ ["foo", "fxob", "bar"], String.toList k |>.all regexDotChar = true) ∧
    storeKeys ["foo", "fxob", "bar"] "f?o*" =
      ["foo", "fxob", "bar"].filter (fun k => specGlobMatch "f?o*" k) :=
  ⟨by decide, by decide, by decide,
   keys_glob_on_safe_patterns ["foo", "fxob", "bar"] "f?o*" (by decide) (by decide)
     (by decide)⟩

/-- C10: a reply value that is a string whose first character is a RESP
type marker is written verbatim, whatever reply type was requested; in
particular a GET reply is the raw stored value when it starts with a
marker, and the bulk-string framing otherwise. -/
theorem send_preformatted_passthrough :
    (∀ (s : String) (t : SendType),
      (jsStartsWith s "+" || jsStartsWith s "-" || jsStartsWith s ":"
        || jsStartsWith s "$" || jsStartsWith s "*") = true →
      clientSend (.vs s) t = some s) ∧
    (∀ v : String,
      (jsStartsWith v "+" || jsStartsWith v "-" || jsStartsWith v ":"
        || jsStartsWith v "$" || jsStartsWith v "*") = true →
      getReplyBytes (some v) = some v) ∧
    (∀ v : String,
      (jsStartsWith v "+" || jsStartsWith v "-" || jsStartsWith v ":"
        || jsStartsWith v "$" || jsStartsWith v "*") = false →
      getReplyBytes (some v) = some (respBulkString (some v))) := by
  refine ⟨?_, ?_, ?_⟩
  · intro s t h; simp [clientSend, h]
  · intro v h; simp [getReplyBytes, clientSend, h]
  · intro v h; simp [getReplyBytes, clientSend, h, respFormat, jsToString]

/-- Witness for C10 at concrete reply values. -/
theorem send_preformatted_passthrough_witness :
    clientSend (.vs "+weird value") .bulk = some "+weird value" ∧
    getReplyBytes (some "$5\r\nhello\r\n") = some "$5\r\nhello\r\n" ∧
    getReplyBytes (some "bar") = some (respBulkString (some "bar")) :=
  ⟨send_preformatted_passthrough.1 "+weird value" .bulk (by decide),
   send_preformatted_passthrough.2.1 "$5\r\nhello\r\n" (by decide),
   send_preformatted_passthrough.2.2 "bar" (by decide)⟩

/-- C3, amended: the exact at-capacity policy of `enqueue` for payloads
that are neither compressed nor chunked.  A LOW enqueue drops the oldest
LOW (or is itself rejected as `queue_full` when none exists); a NORMAL
enqueue drops the oldest LOW when one exists, else the oldest NORMAL when
NORMAL is more than twice PRIORITY; in the remaining cases — PRIORITY, or
NORMAL with no LOW and NORMAL ≤ 2·PRIORITY — nothing is dropped and the
total grows beyond `maxQueueSize`. -/
theorem enqueue_at_capacity_policy (opts : MuxOptions) (msgId : String)
    (q : Queues) (line : String)
    (hc : line.length ≤ opts.compressionThreshold)
    (hk : line.length ≤ opts.maxChunkSize)
    (hfull : opts.maxQueueSize ≤ q.total) :
    (q.low = [] → enqueue opts msgId true q line .low = (false, q)) ∧
    (q.low ≠ [] →
      enqueue opts msgId true q line .low =
        (true, { q with low := q.low.tail ++ [plainMsg line .low] }) ∧
      ({ q with low := q.low.tail ++ [plainMsg line .low] } : Queues).total = q.total) ∧
    (q.low ≠ [] →
      enqueue opts msgId true q line .normal =
        (true, { q with
                  low := q.low.tail,
                  normal := q.normal ++ [plainMsg line .normal] }) ∧
      ({ q with
          low := q.low.tail,
          normal := q.normal ++ [plainMsg line .normal] } : Queues).total = q.total) ∧
    (q.low = [] → 2 * q.priority.length < q.normal.length →
      enqueue opts msgId true q line .normal =
        (true, { q with normal := q.normal.tail ++ [plainMsg line .normal] })) ∧
    (q.low = [] → q.normal.length ≤ 2 * q.priority.length →
      enqueue opts msgId true q line .normal =
        (true, { q with normal := q.normal ++ [plainMsg line .normal] }) ∧
      opts.maxQueueSize <
        ({ q with normal := q.normal ++ [plainMsg line .normal] } : Queues).total) ∧
    (enqueue opts msgId true q line .priority =
        (true, { q with priority := q.priority ++ [plainMsg line .priority] }) ∧
      opts.maxQueueSize <
        ({ q with priority := q.priority ++ [plainMsg line .priority] } : Queues).total) := by
  have hproc : processMessageSync opts msgId line = ⟨none, line, false⟩ := by
    simp [processMessageSync, Nat.not_lt.mpr hc, Nat.not_lt.mpr hk]
  have hge : q.total ≥ opts.maxQueueSize := hfull
  have htail := List.length_tail q.low
  have htail2 := List.length_tail q.normal
  refine ⟨?_, ?_, ?_, ?_, ?_, ?_⟩
  · intro hlow
    simp [enqueue, hge, hlow, hproc, Queues.push, plainMsg]
  · intro hlow
    have hlen : q.low.length ≠ 0 := fun h => hlow (List.length_eq_zero.mp h)
    refine ⟨by simp [enqueue, hge, hlow, hproc, Queues.push, plainMsg], ?_⟩
    simp only [Queues.total, List.length_append, List.length_cons,
      List.length_nil]
    omega
  · intro hlow
    have hlen : q.low.length ≠ 0 := fun h => hlow (List.length_eq_zero.mp h)
    refine ⟨by simp [enqueue, hge, hlow, hproc, Queues.push, plainMsg], ?_⟩
    simp only [Queues.total, List.length_append, List.length_cons,
      List.length_nil]
    omega
  · intro hlow h2
    simp [enqueue, hge, hlow, h2, hproc, Queues.push, plainMsg]
  · intro hlow h2
    have hq : q.total = q.priority.length + q.normal.length + q.low.length := rfl
    refine ⟨by simp [enqueue, hge, hlow, Nat.not_lt.mpr h2, hproc, Queues.push, plainMsg], ?_⟩
    simp only [Queues.total, List.length_append, List.length_cons,
      List.length_nil]
    omega
  · have hq : q.total = q.priority.length + q.normal.length + q.low.length := rfl
    refine ⟨by simp [enqueue, hge, hproc, Queues.push, plainMsg], ?_⟩
    simp only [Queues.total, List.length_append, List.length_cons,
      List.length_nil]
    omega

/-- Witness for C3's amended theorem: a LOW enqueue at capacity drops the
oldest LOW message. -/
theorem enqueue_at_capacity_policy_witness :
    enqueue ⟨2, 1024, 8192⟩ "id" true
        ⟨[], [⟨"x\n", .normal, 1, false, false⟩], [⟨"y\n", .low, 1, false, false⟩]⟩
        "a" .low =
      (true, { (⟨[], [⟨"x\n", .normal, 1, false, false⟩], [⟨"y\n", .low, 1, false, false⟩]⟩ : Queues) with
        low := ([⟨"y\n", .low, 1, false, false⟩] : List QMsg).tail ++ [plainMsg "a" .low] }) := by
  have h := (enqueue_at_capacity_policy ⟨2, 1024, 8192⟩ "id"
    ⟨[], [⟨"x\n", .normal, 1, false, false⟩], [⟨"y\n", .low, 1, false, false⟩]⟩ "a"
    (by decide) (by decide) (by decide)).2.1 (by decide)
  exact h.1

lemma broadcastSync_acc (opts : MuxOptions) (msgId line : String) (p : QPrio) :
    ∀ (socks : List Sock) (s f : Nat) (done : List Sock),
      socks.foldl (broadcastStep opts msgId line p) (s, f, done) =
        (s + (broadcastSync opts msgId line p socks).1,
         f + (broadcastSync opts msgId line p socks).2.1,
         done ++ (broadcastSync opts msgId line p socks).2.2) := by
  intro socks
  induction socks with
  | nil => intro s f done; simp [broadcastSync]
  | cons x rest ih =>
    intro s f done
    show List.foldl _ (broadcastStep opts msgId line p (s, f, done) x) rest = _
    have hsync : broadcastSync opts msgId line p (x :: rest) =
        rest.foldl (broadcastStep opts msgId line p)
          (broadcastStep opts msgId line p (0, 0, []) x) := rfl
    rcases hstep : broadcastStep opts msgId line p (0, 0, []) x with ⟨s0, f0, d0⟩
    have hstep' : broadcastStep opts msgId line p (s, f, done) x =
        (s + s0, f + f0, done ++ d0) := by
      simp only [broadcastStep] at hstep ⊢
      split_ifs at hstep ⊢ <;> simp_all
    rw [hstep', ih, hsync, hstep, ih]
    simp [List.append_assoc]
    omega

lemma broadcastSync_append (opts : MuxOptions) (msgId line : String) (p : QPrio)
    (l1 l2 : List Sock) :
    broadcastSync opts msgId line p (l1 ++ l2) =
      ((broadcastSync opts msgId line p l1).1 + (broadcastSync opts msgId line p l2).1,
       (broadcastSync opts msgId line p l1).2.1 + (broadcastSync opts msgId line p l2).2.1,
       (broadcastSync opts msgId line p l1).2.2 ++ (broadcastSync opts msgId line p l2).2.2) := by
  unfold broadcastSync
  rw [List.foldl_append]
  rcases h1 : (l1.foldl (broadcastStep opts msgId line p) (0, 0, [])) with ⟨s1, f1, d1⟩
  have := broadcastSync_acc opts msgId line p l2 s1 f1 d1
  rw [this]
  simp [broadcastSync, h1]

lemma broadcastSync_counts_partition (opts : MuxOptions) (msgId line : String)
    (p : QPrio) (socks : List Sock) :
    (broadcastSync opts msgId line p socks).1 +
      (broadcastSync opts msgId line p socks).2.1 = socks.length := by
  induction socks with
  | nil => simp [broadcastSync]
  | cons x rest ih =>
    have hsync : broadcastSync opts msgId line p (x :: rest) =
        rest.foldl (broadcastStep opts msgId line p)
          (broadcastStep opts msgId line p (0, 0, []) x) := rfl
    rcases hstep : broadcastStep opts msgId line p (0, 0, []) x with ⟨s0, f0, d0⟩
    have hacc := broadcastSync_acc opts msgId line p rest s0 f0 d0
    have hs : s0 + f0 = 1 := by
      simp only [broadcastStep] at hstep
      split_ifs at hstep <;> simp_all
    rw [hsync, hstep, hacc]
    simp
    omega

lemma broadcastInChunksGo_eq (opts : MuxOptions) (msgId line : String)
    (p : QPrio) :
    ∀ (fuel : Nat) (socks : List Sock), socks.length ≤ fuel →
      broadcastInChunksGo opts msgId line p fuel socks =
        broadcastSync opts msgId line p socks := by
  intro fuel
  induction fuel with
  | zero =>
    intro socks h
    have : socks = [] := List.length_eq_zero.mp (Nat.le_zero.mp h)
    subst this
    simp [broadcastInChunksGo, broadcastSync]
  | succ fuel ih =>
    intro socks h
    by_cases hnil : socks.isEmpty
    · have : socks = [] := List.isEmpty_iff.mp hnil
      subst this
      simp [broadcastInChunksGo, broadcastSync]
    · have hne : socks ≠ [] := fun he => hnil (by simp [he])
      have hlen : 1 ≤ socks.length := by
        cases socks with
        | nil => exact absurd rfl hne
        | cons a r => simp
      have hdrop : (socks.drop 50).length ≤ fuel := by
        simp [List.length_drop]
        omega
      show (if socks.isEmpty then _ else _) = _
      rw [if_neg (by simpa using hnil)]
      rw [ih (socks.drop 50) hdrop]
      have := broadcastSync_append opts msgId line p (socks.take 50) (socks.drop 50)
      rw [List.take_append_drop] at this
      rw [this]

/-- C6, amended: for at most 100 sockets `broadcast` runs the synchronous
loop and returns its success/failure counts (which always sum to N); for
more than 100 sockets it fires the chunked path — which enqueues into
every slot exactly as the synchronous loop would — but returns the counts
`(0, 0)` because the async result is never awaited. -/
theorem broadcast_counts_spec (opts : MuxOptions) (msgId line : String)
    (p : QPrio) (socks : List Sock) :
    (socks.length ≤ 100 →
      broadcast opts msgId line p socks =
        (((broadcastSync opts msgId line p socks).1,
          (broadcastSync opts msgId line p socks).2.1),
         (broadcastSync opts msgId line p socks).2.2)) ∧
    (100 < socks.length →
      broadcast opts msgId line p socks =
        ((0, 0), (broadcastSync opts msgId line p socks).2.2)) ∧
    ((broadcastSync opts msgId line p socks).1 +
      (broadcastSync opts msgId line p socks).2.1 = socks.length) ∧
    (broadcastInChunks opts msgId line p socks =
      broadcastSync opts msgId line p socks) := by
  have hchunks : broadcastInChunks opts msgId line p socks =
      broadcastSync opts msgId line p socks :=
    broadcastInChunksGo_eq opts msgId line p (socks.length + 1) socks (by omega)
  refine ⟨?_, ?_, broadcastSync_counts_partition opts msgId line p socks, hchunks⟩
  · intro h
    simp [broadcast, Nat.not_lt.mpr h]
  · intro h
    simp [broadcast, h, hchunks]

/-- Witness for C6's amended theorem: a one-socket broadcast takes the
synchronous path. -/
theorem broadcast_counts_spec_witness :
    broadcast {} "id" "hi" .normal [⟨false, true, Queues.empty⟩] =
      (((broadcastSync {} "id" "hi" .normal [⟨false, true, Queues.empty⟩]).1,
        (broadcastSync {} "id" "hi" .normal [⟨false, true, Queues.empty⟩]).2.1),
       (broadcastSync {} "id" "hi" .normal [⟨false, true, Queues.empty⟩]).2.2) :=
  (broadcast_counts_spec {} "id" "hi" .normal [⟨false, true, Queues.empty⟩]).1
    (by decide)

lemma flushQueueGo_spec (writeOk : Nat → Bool) :
    ∀ (queue : List QMsg) (idx : Nat),
      ∃ m, (flushQueueGo writeOk idx queue).2.1 = queue.drop m ∧
        (((flushQueueGo writeOk idx queue).1 = (queue.map flushOutContent).take m ∧
            (flushQueueGo writeOk idx queue).2.1 = []) ∨
         ((flushQueueGo writeOk idx queue).1 = (queue.map flushOutContent).take (m + 1) ∧
            m < queue.length)) := by
  intro queue
  induction queue with
  | nil =>
    intro idx
    exact ⟨0, by simp [flushQueueGo], Or.inl (by simp [flushQueueGo])⟩
  | cons msg rest ih =>
    intro idx
    by_cases hw : writeOk idx
    · obtain ⟨k, hrem, hcase⟩ := ih (idx + 1)
      refine ⟨k + 1, ?_, ?_⟩
      · simp [flushQueueGo, hw, hrem]
      · rcases hcase with ⟨hw2, hnil⟩ | ⟨hw2, hlt⟩
        · exact Or.inl ⟨by simp [flushQueueGo, hw, hw2], by simp [flushQueueGo, hw, hnil]⟩
        · exact Or.inr ⟨by simp [flushQueueGo, hw, hw2], by simpa using Nat.succ_lt_succ hlt⟩
    · refine ⟨0, by simp [flushQueueGo, hw], Or.inr ⟨by simp [flushQueueGo, hw], by simp⟩⟩


lemma take3_left {α : Type} (A B C : List α) (k : Nat) (h : k ≤ A.length) :
    ((A ++ B) ++ C).take k = A.take k := by
  rw [List.take_append_of_le_length (by simp; omega),
    List.take_append_of_le_length h]

lemma drop3_left {α : Type} (A B C : List α) (k : Nat) (h : k ≤ A.length) :
    ((A ++ B) ++ C).drop k = (A.drop k ++ B) ++ C := by
  rw [List.drop_append_of_le_length (by simp; omega),
    List.drop_append_of_le_length h]

lemma take3_mid {α : Type} (A B C : List α) (k : Nat) (h : k ≤ B.length) :
    ((A ++ B) ++ C).take (A.length + k) = A ++ B.take k := by
  rw [List.append_assoc, List.take_append, List.take_append_of_le_length h]

lemma drop3_mid {α : Type} (A B C : List α) (k : Nat) (h : k ≤ B.length) :
    ((A ++ B) ++ C).drop (A.length + k) = B.drop k ++ C := by
  rw [List.append_assoc, List.drop_append, List.drop_append_of_le_length h]

lemma take3_right {α : Type} (A B C : List α) (k : Nat) :
    ((A ++ B) ++ C).take (A.length + B.length + k) = (A ++ B) ++ C.take k := by
  rw [show A.length + B.length + k = (A ++ B).length + k by simp,
    List.take_append]

lemma drop3_right {α : Type} (A B C : List α) (k : Nat) :
    ((A ++ B) ++ C).drop (A.length + B.length + k) = C.drop k := by
  rw [show A.length + B.length + k = (A ++ B).length + k by simp,
    List.drop_append]

/-- C8: a flush writes messages in the exact order priority ++ normal ++
low — what was written is a prefix of that drain order and what remains is
the matching suffix (one message may be both written and retained when its
write reported backpressure, as the code leaves it at the queue head) —
and in particular, with one PRIORITY and one LOW message queued and a
socket that accepts exactly one write, the PRIORITY message is the one
written and the flush stops. -/
theorem flush_priority_order (writeOk : Nat → Bool) (q : Queues) :
    (∃ n m, (flush writeOk q).1 = (q.flatten.map flushOutContent).take n ∧
      (flush writeOk q).2.flatten = q.flatten.drop m ∧
      (n = m ∨ n = m + 1)) ∧
    (∀ pm lm : QMsg, writeOk 0 = false →
      flush writeOk ⟨[pm], [], [lm]⟩ = ([flushOutContent pm], ⟨[pm], [], [lm]⟩)) := by
  constructor
  · by_cases h0 : q.total = 0
    · have h0' : q.priority.length + q.normal.length + q.low.length = 0 := h0
      have hp : q.priority = [] := List.length_eq_zero.mp (by omega)
      have hn : q.normal = [] := List.length_eq_zero.mp (by omega)
      have hl : q.low = [] := List.length_eq_zero.mp (by omega)
      refine ⟨0, 0, ?_, ?_, Or.inl rfl⟩ <;>
        simp [flush, h0, Queues.flatten, hp, hn, hl]
    · rcases h1 : flushQueueGo writeOk 0 q.priority with ⟨w1, p', i1⟩
      obtain ⟨m1, hrem1, hcase1⟩ := flushQueueGo_spec writeOk q.priority 0
      rw [h1] at hrem1 hcase1
      simp only at hrem1 hcase1
      by_cases hp : p' = []
      · -- priority fully drained; move on to the normal queue
        subst hp
        have hm1 : q.priority.length ≤ m1 := List.drop_eq_nil_iff.mp hrem1.symm
        have hw1 : w1 = q.priority.map flushOutContent := by
          rcases hcase1 with ⟨hw1, _⟩ | ⟨_, hlt⟩
          · rw [hw1, List.take_of_length_le (by simpa using hm1)]
          · omega
        rcases h2 : flushQueueGo writeOk i1 q.normal with ⟨w2, n', i2⟩
        obtain ⟨m2, hrem2, hcase2⟩ := flushQueueGo_spec writeOk q.normal i1
        rw [h2] at hrem2 hcase2
        simp only at hrem2 hcase2
        by_cases hn : n' = []
        · -- normal fully drained; move on to the low queue
          subst hn
          have hm2 : q.normal.length ≤ m2 := List.drop_eq_nil_iff.mp hrem2.symm
          have hw2 : w2 = q.normal.map flushOutContent := by
            rcases hcase2 with ⟨hw2, _⟩ | ⟨_, hlt⟩
            · rw [hw2, List.take_of_length_le (by simpa using hm2)]
            · omega
          rcases h3 : flushQueueGo writeOk i2 q.low with ⟨w3, l', i3⟩
          obtain ⟨m3, hrem3, hcase3⟩ := flushQueueGo_spec writeOk q.low i2
          rw [h3] at hrem3 hcase3
          simp only at hrem3 hcase3
          have hflush : flush writeOk q = (w1 ++ w2 ++ w3, ⟨[], [], l'⟩) := by
            simp [flush, h0, h1, h2, h3]
          rcases hcase3 with ⟨hw3, hl'⟩ | ⟨hw3, hlt3⟩
          · refine ⟨q.priority.length + q.normal.length + m3,
              q.priority.length + q.normal.length + m3, ?_, ?_, Or.inl rfl⟩
            · rw [hflush]
              simp only [Queues.flatten, List.map_append]
              rw [show q.priority.length + q.normal.length + m3 =
                  (q.priority.map flushOutContent).length +
                    (q.normal.map flushOutContent).length + m3 by
                    simp only [List.length_map],
                take3_right, hw1, hw2, hw3, List.append_assoc]
            · rw [hflush]
              simp only [Queues.flatten]
              rw [drop3_right, hrem3]
              simp
          · refine ⟨q.priority.length + q.normal.length + m3 + 1,
              q.priority.length + q.normal.length + m3, ?_, ?_, Or.inr rfl⟩
            · rw [hflush]
              simp only [Queues.flatten, List.map_append]
              rw [show q.priority.length + q.normal.length + m3 + 1 =
                  (q.priority.map flushOutContent).length +
                    (q.normal.map flushOutContent).length + (m3 + 1) by
                    simp only [List.length_map]; omega,
                take3_right, hw1, hw2, hw3, List.append_assoc]
            · rw [hflush]
              simp only [Queues.flatten]
              rw [drop3_right, hrem3]
              simp
        · -- backpressure inside the normal queue
          rcases hcase2 with ⟨_, hnil⟩ | ⟨hw2, hlt2⟩
          · exact absurd hnil hn
          have hflush : flush writeOk q = (w1 ++ w2, ⟨[], n', q.low⟩) := by
            simp [flush, h0, h1, h2, hn]
          refine ⟨q.priority.length + m2 + 1, q.priority.length + m2, ?_, ?_,
            Or.inr rfl⟩
          · rw [hflush]
            simp only [Queues.flatten, List.map_append]
            rw [show q.priority.length + m2 + 1 =
                (q.priority.map flushOutContent).length + (m2 + 1) by
                  simp only [List.length_map]; omega,
              take3_mid _ _ _ _ (by simpa using hlt2), hw1, hw2]
          · rw [hflush]
            simp only [Queues.flatten]
            rw [show q.priority.length + m2 =
                q.priority.length + m2 by rfl,
              drop3_mid _ _ _ _ (Nat.le_of_lt hlt2), hrem2]
            simp
      · -- backpressure inside the priority queue
        rcases hcase1 with ⟨_, hnil⟩ | ⟨hw1, hlt⟩
        · exact absurd hnil hp
        have hflush : flush writeOk q = (w1, ⟨p', q.normal, q.low⟩) := by
          simp [flush, h0, h1, hp]
        refine ⟨m1 + 1, m1, ?_, ?_, Or.inr rfl⟩
        · rw [hflush]
          simp only [Queues.flatten, List.map_append]
          rw [take3_left _ _ _ _ (by simpa using hlt), hw1]
        · rw [hflush]
          simp only [Queues.flatten]
          rw [drop3_left _ _ _ _ (Nat.le_of_lt hlt), hrem1]
  · intro pm lm hw
    simp [flush, Queues.total, flushQueueGo, hw]

/-- Witness for C8 at a concrete slot and a socket that reports
backpressure on the first write. -/
theorem flush_priority_order_witness :
    flush (fun _ => false) ⟨[⟨"p\n", .priority, 2, false, false⟩], [],
        [⟨"l\n", .low, 2, false, false⟩]⟩ =
      ([flushOutContent ⟨"p\n", .priority, 2, false, false⟩],
       ⟨[⟨"p\n", .priority, 2, false, false⟩], [],
        [⟨"l\n", .low, 2, false, false⟩]⟩) :=
  (flush_priority_order (fun _ => false)
      ⟨[⟨"p\n", .priority, 2, false, false⟩], [],
       [⟨"l\n", .low, 2, false, false⟩]⟩).2
    ⟨"p\n", .priority, 2, false, false⟩ ⟨"l\n", .low, 2, false, false⟩ rfl

lemma mem_addIfAbsent {x c : Nat} {l : List Nat} :
    x ∈ addIfAbsent c l ↔ x ∈ l ∨ x = c := by
  unfold addIfAbsent
  split_ifs with h
  · constructor
    · exact Or.inl
    · rintro (hx | rfl) <;> [exact hx; exact h]
  · simp

lemma addIfAbsent_nodup {c : Nat} {l : List Nat} (h : l.Nodup) :
    (addIfAbsent c l).Nodup := by
  unfold addIfAbsent
  split_ifs with hc
  · exact h
  · simpa [List.nodup_append, h] using hc

lemma addIfAbsent_ne_nil {c : Nat} {l : List Nat} : addIfAbsent c l ≠ [] := by
  unfold addIfAbsent
  split_ifs with hc
  · rintro rfl; exact absurd hc (List.not_mem_nil c)
  · simp

lemma chanMembers_nil_of_not_mem {chs : List (String × List Nat)} {ch : String}
    (h : ch ∉ chs.map Prod.fst) : chanMembers chs ch = [] := by
  induction chs with
  | nil => rfl
  | cons e rest ih =>
    have h1 : e.1 ≠ ch := fun he => h (by simp [he.symm])
    have h2 : ch ∉ rest.map Prod.fst := fun hm => h (by simp [hm])
    simp [chanMembers, h1, ih h2]

lemma keys_nodup_cons {e : String × List Nat} {rest : List (String × List Nat)}
    (h : ((e :: rest).map Prod.fst).Nodup) :
    e.1 ∉ rest.map Prod.fst ∧ (rest.map Prod.fst).Nodup := by
  rw [List.map_cons] at h
  exact List.nodup_cons.mp h

lemma chanMembers_psSubscribeCh_self (c : Nat) (ch : String) :
    ∀ chs : List (String × List Nat),
      chanMembers (psSubscribeCh c ch chs) ch = addIfAbsent c (chanMembers chs ch)
  | [] => by simp [psSubscribeCh, chanMembers, addIfAbsent]
  | e :: rest => by
    by_cases he : e.1 = ch
    · simp [psSubscribeCh, chanMembers, he]
    · simp [psSubscribeCh, chanMembers, he,
        chanMembers_psSubscribeCh_self c ch rest]

lemma chanMembers_psSubscribeCh_other (c : Nat) {ch ch' : String}
    (hne : ch' ≠ ch) :
    ∀ chs : List (String × List Nat),
      chanMembers (psSubscribeCh c ch chs) ch' = chanMembers chs ch'
  | [] => by simp [psSubscribeCh, chanMembers, Ne.symm hne]
  | e :: rest => by
    by_cases he : e.1 = ch
    · have h2 : ¬ ch = ch' := Ne.symm hne
      simp [psSubscribeCh, chanMembers, he, h2]
    · by_cases he' : e.1 = ch'
      · simp [psSubscribeCh, chanMembers, he, he', hne]
      · simp [psSubscribeCh, chanMembers, he, he',
          chanMembers_psSubscribeCh_other c hne rest]

lemma chanMembers_psUnsubscribeCh_self (c : Nat) (ch : String) :
    ∀ chs : List (String × List Nat), (chs.map Prod.fst).Nodup →
      chanMembers (psUnsubscribeCh c ch chs) ch = (chanMembers chs ch).erase c
  | [], _ => by simp [psUnsubscribeCh, chanMembers]
  | e :: rest, hnd => by
    have hnd' : (rest.map Prod.fst).Nodup := (keys_nodup_cons hnd).2
    by_cases he : e.1 = ch
    · have hrest : ch ∉ rest.map Prod.fst := by
        have := (keys_nodup_cons hnd).1
        rwa [he] at this
      by_cases hemp : e.2.erase c = []
      · rw [show psUnsubscribeCh c ch (e :: rest) = rest from by
          simp [psUnsubscribeCh, he, hemp]]
        rw [chanMembers_nil_of_not_mem hrest]
        simp only [chanMembers, he, if_pos]
        exact hemp.symm
      · rw [show psUnsubscribeCh c ch (e :: rest) =
            (e.1, e.2.erase c) :: rest from by simp [psUnsubscribeCh, he, hemp]]
        simp [chanMembers, he]
    · simp [psUnsubscribeCh, chanMembers, he,
        chanMembers_psUnsubscribeCh_self c ch rest hnd']

lemma chanMembers_psUnsubscribeCh_other (c : Nat) {ch ch' : String}
    (hne : ch' ≠ ch) :
    ∀ chs : List (String × List Nat),
      chanMembers (psUnsubscribeCh c ch chs) ch' = chanMembers chs ch'
  | [] => by simp [psUnsubscribeCh, chanMembers]
  | e :: rest => by
    have h3 : ¬ ch = ch' := Ne.symm hne
    by_cases he : e.1 = ch
    · have h2 : ¬ e.1 = ch' := by rw [he]; exact h3
      by_cases hemp : e.2.erase c = []
      · rw [show psUnsubscribeCh c ch (e :: rest) = rest from by
          simp [psUnsubscribeCh, he, hemp]]
        simp [chanMembers, h2]
      · rw [show psUnsubscribeCh c ch (e :: rest) =
            (e.1, e.2.erase c) :: rest from by simp [psUnsubscribeCh, he, hemp]]
        simp [chanMembers, h2]
    · rw [show psUnsubscribeCh c ch (e :: rest) =
          e :: psUnsubscribeCh c ch rest from by simp [psUnsubscribeCh, he]]
      by_cases he' : e.1 = ch'
      · simp [chanMembers, he']
      · simp [chanMembers, he',
          chanMembers_psUnsubscribeCh_other c hne rest]

lemma chanMembers_psUnsubAllCh (c : Nat) :
    ∀ chs : List (String × List Nat), (chs.map Prod.fst).Nodup →
      ∀ ch, chanMembers (psUnsubAllCh c chs) ch = (chanMembers chs ch).erase c
  | [], _ => by simp [psUnsubAllCh, chanMembers]
  | e :: rest, hnd => by
    intro ch
    have hhead : e.1 ∉ rest.map Prod.fst := (keys_nodup_cons hnd).1
    have hnd' : (rest.map Prod.fst).Nodup := (keys_nodup_cons hnd).2
    have ih := chanMembers_psUnsubAllCh c rest hnd'
    by_cases hc : c ∈ e.2
    · by_cases hemp : e.2.erase c = []
      · by_cases he : e.1 = ch
        · have hrest : ch ∉ rest.map Prod.fst := he ▸ hhead
          rw [show psUnsubAllCh c (e :: rest) = psUnsubAllCh c rest by
            simp [psUnsubAllCh, hc, hemp]]
          rw [ih ch, chanMembers_nil_of_not_mem hrest]
          simp [chanMembers, he, hemp]
        · rw [show psUnsubAllCh c (e :: rest) = psUnsubAllCh c rest by
            simp [psUnsubAllCh, hc, hemp]]
          rw [ih ch]
          simp [chanMembers, he]
      · by_cases he : e.1 = ch
        · rw [show psUnsubAllCh c (e :: rest) =
              (e.1, e.2.erase c) :: psUnsubAllCh c rest by
            simp [psUnsubAllCh, hc, hemp]]
          simp [chanMembers, he]
        · rw [show psUnsubAllCh c (e :: rest) =
              (e.1, e.2.erase c) :: psUnsubAllCh c rest by
            simp [psUnsubAllCh, hc, hemp]]
          simp [chanMembers, he, ih ch]
    · by_cases he : e.1 = ch
      · rw [show psUnsubAllCh c (e :: rest) = e :: psUnsubAllCh c rest by
          simp [psUnsubAllCh, hc]]
        simp [chanMembers, he, List.erase_of_not_mem hc]
      · rw [show psUnsubAllCh c (e :: rest) = e :: psUnsubAllCh c rest by
          simp [psUnsubAllCh, hc]]
        simp [chanMembers, he, ih ch]

lemma psSubscribeCh_entries (c : Nat) (ch : String) :
    ∀ chs : List (String × List Nat), ∀ e ∈ psSubscribeCh c ch chs,
      e ∈ chs ∨ (∃ e' ∈ chs, e = (e'.1, addIfAbsent c e'.2)) ∨ e = (ch, [c])
  | [] => by simp [psSubscribeCh]
  | f :: rest => by
    intro e he
    by_cases hf : f.1 = ch
    · rw [show psSubscribeCh c ch (f :: rest) =
          (f.1, addIfAbsent c f.2) :: rest from by simp [psSubscribeCh, hf]] at he
      rcases List.mem_cons.mp he with rfl | hmem
      · exact Or.inr (Or.inl ⟨f, List.mem_cons_self f rest, rfl⟩)
      · exact Or.inl (List.mem_cons_of_mem f hmem)
    · rw [show psSubscribeCh c ch (f :: rest) =
          f :: psSubscribeCh c ch rest from by simp [psSubscribeCh, hf]] at he
      rcases List.mem_cons.mp he with rfl | hmem
      · exact Or.inl (List.mem_cons_self e rest)
      · rcases psSubscribeCh_entries c ch rest e hmem with h | ⟨e', he', hee⟩ | h
        · exact Or.inl (List.mem_cons_of_mem f h)
        · exact Or.inr (Or.inl ⟨e', List.mem_cons_of_mem f he', hee⟩)
        · exact Or.inr (Or.inr h)

lemma psUnsubscribeCh_entries (c : Nat) (ch : String) :
    ∀ chs : List (String × List Nat), ∀ e ∈ psUnsubscribeCh c ch chs,
      e ∈ chs ∨ ∃ e' ∈ chs, e = (e'.1, e'.2.erase c) ∧ e'.2.erase c ≠ []
  | [] => by simp [psUnsubscribeCh]
  | f :: rest => by
    intro e he
    by_cases hf : f.1 = ch
    · by_cases hemp : f.2.erase c = []
      · rw [show psUnsubscribeCh c ch (f :: rest) = rest from by
          simp [psUnsubscribeCh, hf, hemp]] at he
        exact Or.inl (List.mem_cons_of_mem f he)
      · rw [show psUnsubscribeCh c ch (f :: rest) =
            (f.1, f.2.erase c) :: rest from by simp [psUnsubscribeCh, hf, hemp]] at he
        rcases List.mem_cons.mp he with rfl | hmem
        · exact Or.inr ⟨f, List.mem_cons_self f rest, rfl, hemp⟩
        · exact Or.inl (List.mem_cons_of_mem f hmem)
    · rw [show psUnsubscribeCh c ch (f :: rest) =
          f :: psUnsubscribeCh c ch rest from by simp [psUnsubscribeCh, hf]] at he
      rcases List.mem_cons.mp he with rfl | hmem
      · exact Or.inl (List.mem_cons_self e rest)
      · rcases psUnsubscribeCh_entries c ch rest e hmem with h | ⟨e', he', hee⟩
        · exact Or.inl (List.mem_cons_of_mem f h)
        · exact Or.inr ⟨e', List.mem_cons_of_mem f he', hee⟩

lemma psUnsubAllCh_entries (c : Nat) :
    ∀ chs : List (String × List Nat), ∀ e ∈ psUnsubAllCh c chs,
      (e ∈ chs ∧ c ∉ e.2) ∨ ∃ e' ∈ chs, e = (e'.1, e'.2.erase c) ∧ e'.2.erase c ≠ []
  | [] => by simp [psUnsubAllCh]
  | f :: rest => by
    intro e he
    by_cases hc : c ∈ f.2
    · by_cases hemp : f.2.erase c = []
      · rw [show psUnsubAllCh c (f :: rest) = psUnsubAllCh c rest from by
          simp [psUnsubAllCh, hc, hemp]] at he
        rcases psUnsubAllCh_entries c rest e he with ⟨h, hv⟩ | ⟨e', he', hee⟩
        · exact Or.inl ⟨List.mem_cons_of_mem f h, hv⟩
        · exact Or.inr ⟨e', List.mem_cons_of_mem f he', hee⟩
      · rw [show psUnsubAllCh c (f :: rest) =
            (f.1, f.2.erase c) :: psUnsubAllCh c rest from by
          simp [psUnsubAllCh, hc, hemp]] at he
        rcases List.mem_cons.mp he with rfl | hmem
        · exact Or.inr ⟨f, List.mem_cons_self f rest, rfl, hemp⟩
        · rcases psUnsubAllCh_entries c rest e hmem with ⟨h, hv⟩ | ⟨e', he', hee⟩
          · exact Or.inl ⟨List.mem_cons_of_mem f h, hv⟩
          · exact Or.inr ⟨e', List.mem_cons_of_mem f he', hee⟩
    · rw [show psUnsubAllCh c (f :: rest) = f :: psUnsubAllCh c rest from by
        simp [psUnsubAllCh, hc]] at he
      rcases List.mem_cons.mp he with rfl | hmem
      · exact Or.inl ⟨List.mem_cons_self e rest, hc⟩
      · rcases psUnsubAllCh_entries c rest e hmem with ⟨h, hv⟩ | ⟨e', he', hee⟩
        · exact Or.inl ⟨List.mem_cons_of_mem f h, hv⟩
        · exact Or.inr ⟨e', List.mem_cons_of_mem f he', hee⟩

lemma mem_chanMembers_exists {c : Nat} {ch : String} :
    ∀ {chs : List (String × List Nat)}, c ∈ chanMembers chs ch →
      ∃ e ∈ chs, c ∈ e.2
  | [], h => absurd h (List.not_mem_nil c)
  | f :: rest, h => by
    by_cases hf : f.1 = ch
    · rw [show chanMembers (f :: rest) ch = f.2 from by simp [chanMembers, hf]] at h
      exact ⟨f, List.mem_cons_self f rest, h⟩
    · rw [show chanMembers (f :: rest) ch = chanMembers rest ch from by
        simp [chanMembers, hf]] at h
      obtain ⟨e, he, hc⟩ := mem_chanMembers_exists h
      exact ⟨e, List.mem_cons_of_mem f he, hc⟩

lemma chanMembers_nodup {ch : String} :
    ∀ {chs : List (String × List Nat)}, (∀ e ∈ chs, e.2.Nodup) →
      (chanMembers chs ch).Nodup
  | [], _ => List.nodup_nil
  | f :: rest, h => by
    by_cases hf : f.1 = ch
    · rw [show chanMembers (f :: rest) ch = f.2 from by simp [chanMembers, hf]]
      exact h f (List.mem_cons_self f rest)
    · rw [show chanMembers (f :: rest) ch = chanMembers rest ch from by
        simp [chanMembers, hf]]
      exact chanMembers_nodup fun e he => h e (List.mem_cons_of_mem f he)

lemma psSubscribeCh_keys_of_mem (c : Nat) (ch : String) :
    ∀ chs : List (String × List Nat), ch ∈ chs.map Prod.fst →
      (psSubscribeCh c ch chs).map Prod.fst = chs.map Prod.fst
  | [] => by simp
  | f :: rest => by
    intro hmem
    by_cases hf : f.1 = ch
    · rw [show psSubscribeCh c ch (f :: rest) =
          (f.1, addIfAbsent c f.2) :: rest from by simp [psSubscribeCh, hf]]
      simp
    · have : ch ∈ rest.map Prod.fst := by
        rw [List.map_cons] at hmem
        rcases List.mem_cons.mp hmem with h | h
        · exact absurd h.symm hf
        · exact h
      rw [show psSubscribeCh c ch (f :: rest) =
          f :: psSubscribeCh c ch rest from by simp [psSubscribeCh, hf]]
      simp [psSubscribeCh_keys_of_mem c ch rest this]

lemma psSubscribeCh_keys_of_not_mem (c : Nat) (ch : String) :
    ∀ chs : List (String × List Nat), ch ∉ chs.map Prod.fst →
      (psSubscribeCh c ch chs).map Prod.fst = chs.map Prod.fst ++ [ch]
  | [] => by simp [psSubscribeCh]
  | f :: rest => by
    intro hmem
    have hf : ¬ f.1 = ch := fun h => hmem (by simp [h.symm])
    have hrest : ch ∉ rest.map Prod.fst := fun h => hmem (by simp [h])
    rw [show psSubscribeCh c ch (f :: rest) =
        f :: psSubscribeCh c ch rest from by simp [psSubscribeCh, hf]]
    simp [psSubscribeCh_keys_of_not_mem c ch rest hrest]

lemma psUnsubscribeCh_keys_sublist (c : Nat) (ch : String) :
    ∀ chs : List (String × List Nat),
      ((psUnsubscribeCh c ch chs).map Prod.fst).Sublist (chs.map Prod.fst)
  | [] => by simp [psUnsubscribeCh]
  | f :: rest => by
    by_cases hf : f.1 = ch
    · by_cases hemp : f.2.erase c = []
      · rw [show psUnsubscribeCh c ch (f :: rest) = rest from by
          simp [psUnsubscribeCh, hf, hemp], List.map_cons]
        exact List.sublist_cons_self f.1 (rest.map Prod.fst)
      · rw [show psUnsubscribeCh c ch (f :: rest) =
            (f.1, f.2.erase c) :: rest from by simp [psUnsubscribeCh, hf, hemp]]
        simp
    · rw [show psUnsubscribeCh c ch (f :: rest) =
          f :: psUnsubscribeCh c ch rest from by simp [psUnsubscribeCh, hf]]
      simpa using (psUnsubscribeCh_keys_sublist c ch rest).cons₂ f.1

lemma psUnsubAllCh_keys_sublist (c : Nat) :
    ∀ chs : List (String × List Nat),
      ((psUnsubAllCh c chs).map Prod.fst).Sublist (chs.map Prod.fst)
  | [] => by simp [psUnsubAllCh]
  | f :: rest => by
    by_cases hc : c ∈ f.2
    · by_cases hemp : f.2.erase c = []
      · rw [show psUnsubAllCh c (f :: rest) = psUnsubAllCh c rest from by
          simp [psUnsubAllCh, hc, hemp]]
        exact (psUnsubAllCh_keys_sublist c rest).trans (by simp)
      · rw [show psUnsubAllCh c (f :: rest) =
            (f.1, f.2.erase c) :: psUnsubAllCh c rest from by
          simp [psUnsubAllCh, hc, hemp]]
        simpa using (psUnsubAllCh_keys_sublist c rest).cons₂ f.1
    · rw [show psUnsubAllCh c (f :: rest) = f :: psUnsubAllCh c rest from by
        simp [psUnsubAllCh, hc]]
      simpa using (psUnsubAllCh_keys_sublist c rest).cons₂ f.1

lemma chanInv_init : ChanInv PS.init where
  liveNodup := List.nodup_nil
  keysNodup := List.nodup_nil
  entriesNonempty := by simp [PS.init]
  entriesNodup := by simp [PS.init]
  entriesLive := by simp [PS.init]
  subsNodup := by simp [PS.init]
  symm := by simp [PS.init, chanMembers]

lemma chanInv_apply {st : PS} (h : ChanInv st) (op : PSOp) :
    ChanInv (PSOp.apply st op) := by
  cases op with
  | connect c =>
    by_cases hlive : c ∈ st.live
    · simpa [PSOp.apply, hlive] using h
    · rw [show PSOp.apply st (.connect c) =
          ⟨st.channels, fun c' => if c' = c then [] else st.subs c',
           st.live ++ [c]⟩ from by simp [PSOp.apply, hlive]]
      refine ⟨?_, h.keysNodup, h.entriesNonempty, h.entriesNodup, ?_, ?_, ?_⟩
      · simpa [List.nodup_append] using ⟨h.liveNodup, hlive⟩
      · intro e he x hx
        exact List.mem_append_left _ (h.entriesLive e he x hx)
      · intro c'
        by_cases hc : c' = c <;> simp [hc, h.subsNodup c']
      · intro c' hc' ch
        rcases List.mem_append.mp hc' with hin | hin
        · have hne : c' ≠ c := fun hh => hlive (hh ▸ hin)
          simpa [hne] using h.symm c' hin ch
        · have hcc : c' = c := by simpa using hin
          subst hcc
          simp only [if_pos rfl]
          constructor
          · intro hmem
            obtain ⟨e, he, hx⟩ := mem_chanMembers_exists hmem
            exact absurd (h.entriesLive e he c' hx) hlive
          · intro hmem
            exact absurd hmem (List.not_mem_nil ch)
  | subscribe c ch =>
    by_cases hguard : c ∈ st.live ∧ ch ∉ st.subs c
    · obtain ⟨hlive, hsub⟩ := hguard
      rw [show PSOp.apply st (.subscribe c ch) =
          ⟨psSubscribeCh c ch st.channels,
           fun c' => if c' = c then st.subs c ++ [ch] else st.subs c',
           st.live⟩ from by simp [PSOp.apply, hlive, hsub]]
      refine ⟨h.liveNodup, ?_, ?_, ?_, ?_, ?_, ?_⟩
      · by_cases hk : ch ∈ st.channels.map Prod.fst
        · rw [psSubscribeCh_keys_of_mem c ch st.channels hk]
          exact h.keysNodup
        · rw [psSubscribeCh_keys_of_not_mem c ch st.channels hk]
          refine List.Nodup.append h.keysNodup (List.nodup_singleton ch) ?_
          intro a ha hb
          exact hk ((List.mem_singleton.mp hb) ▸ ha)
      · intro e he
        rcases psSubscribeCh_entries c ch st.channels e he with
          hold | ⟨e', _, rfl⟩ | rfl
        · exact h.entriesNonempty e hold
        · exact addIfAbsent_ne_nil
        · simp
      · intro e he
        rcases psSubscribeCh_entries c ch st.channels e he with
          hold | ⟨e', he', rfl⟩ | rfl
        · exact h.entriesNodup e hold
        · exact addIfAbsent_nodup (h.entriesNodup e' he')
        · simp
      · intro e he x hx
        rcases psSubscribeCh_entries c ch st.channels e he with
          hold | ⟨e', he', rfl⟩ | rfl
        · exact h.entriesLive e hold x hx
        · rcases mem_addIfAbsent.mp hx with hin | rfl
          · exact h.entriesLive e' he' x hin
          · exact hlive
        · have : x = c := by simpa using hx
          exact this ▸ hlive
      · intro c'
        by_cases hc : c' = c
        · subst hc
          simpa [List.nodup_append, h.subsNodup c'] using hsub
        · simpa [hc] using h.subsNodup c'
      · intro c' hc' ch'
        by_cases hch : ch' = ch
        · subst hch
          rw [chanMembers_psSubscribeCh_self]
          by_cases hc : c' = c
          · subst hc
            simp [mem_addIfAbsent]
          · rw [show c' ∈ addIfAbsent c (chanMembers st.channels ch') ↔
                c' ∈ chanMembers st.channels ch' from by
              simp [mem_addIfAbsent, hc]]
            simpa [hc] using h.symm c' hc' ch'
        · rw [chanMembers_psSubscribeCh_other c hch]
          by_cases hc : c' = c
          · subst hc
            rw [h.symm c' hc' ch']
            simp [hch]
          · simpa [hc] using h.symm c' hc' ch'
    · simpa [PSOp.apply, hguard] using h
  | unsubscribe c ch =>
    by_cases hguard : c ∈ st.live ∧ ch ∈ st.subs c
    · obtain ⟨hlive, hsub⟩ := hguard
      rw [show PSOp.apply st (.unsubscribe c ch) =
          ⟨psUnsubscribeCh c ch st.channels,
           fun c' => if c' = c then (st.subs c).erase ch else st.subs c',
           st.live⟩ from by simp [PSOp.apply, hlive, hsub]]
      refine ⟨h.liveNodup, ?_, ?_, ?_, ?_, ?_, ?_⟩
      · exact h.keysNodup.sublist (psUnsubscribeCh_keys_sublist c ch st.channels)
      · intro e he
        rcases psUnsubscribeCh_entries c ch st.channels e he with
          hold | ⟨e', _, rfl, hne⟩
        · exact h.entriesNonempty e hold
        · exact hne
      · intro e he
        rcases psUnsubscribeCh_entries c ch st.channels e he with
          hold | ⟨e', he', rfl, _⟩
        · exact h.entriesNodup e hold
        · exact (h.entriesNodup e' he').erase c
      · intro e he x hx
        rcases psUnsubscribeCh_entries c ch st.channels e he with
          hold | ⟨e', he', rfl, _⟩
        · exact h.entriesLive e hold x hx
        · exact h.entriesLive e' he' x (List.mem_of_mem_erase hx)
      · intro c'
        by_cases hc : c' = c
        · subst hc
          simpa using (h.subsNodup c').erase ch
        · simpa [hc] using h.subsNodup c'
      · intro c' hc' ch'
        by_cases hch : ch' = ch
        · subst hch
          rw [chanMembers_psUnsubscribeCh_self c ch' st.channels h.keysNodup]
          by_cases hc : c' = c
          · subst hc
            have hmn : (chanMembers st.channels ch').Nodup :=
              chanMembers_nodup h.entriesNodup
            simp [hmn.mem_erase_iff, (h.subsNodup c').mem_erase_iff]
          · rw [List.mem_erase_of_ne hc]
            simpa [hc] using h.symm c' hc' ch'
        · rw [chanMembers_psUnsubscribeCh_other c hch]
          by_cases hc : c' = c
          · subst hc
            rw [h.symm c' hc' ch']
            simp [List.mem_erase_of_ne hch]
          · simpa [hc] using h.symm c' hc' ch'
    · simpa [PSOp.apply, hguard] using h
  | close c =>
    by_cases hlive : c ∈ st.live
    · rw [show PSOp.apply st (.close c) =
          ⟨psUnsubAllCh c st.channels, st.subs, st.live.erase c⟩ from by
        simp [PSOp.apply, hlive]]
      refine ⟨h.liveNodup.erase c, ?_, ?_, ?_, ?_, h.subsNodup, ?_⟩
      · exact h.keysNodup.sublist (psUnsubAllCh_keys_sublist c st.channels)
      · intro e he
        rcases psUnsubAllCh_entries c st.channels e he with
          ⟨hold, _⟩ | ⟨e', _, rfl, hne⟩
        · exact h.entriesNonempty e hold
        · exact hne
      · intro e he
        rcases psUnsubAllCh_entries c st.channels e he with
          ⟨hold, _⟩ | ⟨e', he', rfl, _⟩
        · exact h.entriesNodup e hold
        · exact (h.entriesNodup e' he').erase c
      · intro e he x hx
        rcases psUnsubAllCh_entries c st.channels e he with
          ⟨hold, hnc⟩ | ⟨e', he', rfl, _⟩
        · have hxl : x ∈ st.live := h.entriesLive e hold x hx
          have hxc : x ≠ c := fun hh => hnc (hh ▸ hx)
          exact (List.mem_erase_of_ne hxc).mpr hxl
        · have hxin := ((h.entriesNodup e' he').mem_erase_iff).mp hx
          have hxl : x ∈ st.live := h.entriesLive e' he' x hxin.2
          exact (List.mem_erase_of_ne hxin.1).mpr hxl
      · intro c' hc' ch
        have hc'' := (h.liveNodup.mem_erase_iff).mp hc'
        rw [chanMembers_psUnsubAllCh c st.channels h.keysNodup ch]
        rw [List.mem_erase_of_ne hc''.1]
        exact h.symm c' hc''.2 ch
    · simpa [PSOp.apply, hlive] using h

lemma chanInv_applyOps {st : PS} (h : ChanInv st) :
    ∀ ops : List PSOp, ChanInv (st.applyOps ops) := by
  intro ops
  induction ops generalizing st with
  | nil => simpa [PS.applyOps] using h
  | cons op rest ih =>
    have h1 := chanInv_apply h op
    simpa [PS.applyOps] using ih h1

/-- C7: starting from an empty broker, after any sequence of connection,
SUBSCRIBE, UNSUBSCRIBE and close events, a live connection is in a
channel's subscriber set exactly when the channel is in the connection's
subscribed set, and every channel present in the broker's map has a
nonempty subscriber set (emptied channels are removed). -/
theorem pubsub_membership_symmetric (ops : List PSOp) :
    (∀ c ∈ (PS.init.applyOps ops).live, ∀ ch : String,
      (c ∈ chanMembers (PS.init.applyOps ops).channels ch ↔
        ch ∈ (PS.init.applyOps ops).subs c)) ∧
    (∀ e ∈ (PS.init.applyOps ops).channels, e.2 ≠ []) :=
  let h := chanInv_applyOps chanInv_init ops
  ⟨h.symm, h.entriesNonempty⟩

/-- Witness for C7 after a concrete connect + subscribe sequence. -/
theorem pubsub_membership_symmetric_witness :
    1 ∈ (PS.init.applyOps [.connect 1, .subscribe 1 "news"]).live ∧
    (1 ∈ chanMembers
        (PS.init.applyOps [.connect 1, .subscribe 1 "news"]).channels "news" ↔
      "news" ∈ (PS.init.applyOps [.connect 1, .subscribe 1 "news"]).subs 1) :=
  ⟨by decide,
   (pubsub_membership_symmetric [.connect 1, .subscribe 1 "news"]).1 1
     (by decide) "news"⟩

end MiniRedis
